import Mathlib

/-!
# Parallel_Aligner: the UPGMA clustering core of `msa.cpp`

A shallow embedding of the clustering code of `msa.cpp` (`make_sub_matrix`, `UPGMA`,
`merge_clusters`, `find_closest_clusters`, `mean_difference`, `seq_to_seq_distance`)
and theorems about it.

Modelling conventions.

* `std::vector<T>` is `List T`; `push_back` appends at the end, `erase(begin() + i)` is
  `List.eraseIdx`.
* C++ `int` is `Int` (signed overflow is undefined in C++ and is not modelled); the lanes of
  an `__m256i` wrap to 32 bits explicitly (`wrap32`).
* C++ `float` is `Flt`: a finite value is an exact rational (rounding and overflow of finite
  results are not modelled), and the IEEE special values `+inf`, `-inf` and `NaN` are kept,
  with the IEEE rules for arithmetic and comparison on them. Signed zeros are not modelled; a
  zero divisor is the positive zero obtained from an `int`.
* `sqrt` on finite non-negative values is a parameter `fsqrt : ℚ → ℚ`.
* A read outside a vector is undefined in C++; the model returns `NaN` for such a read of a
  `vector<float>`.
* The OpenMP regions are executed by a single worker, in loop order.
-/

namespace MSA

/-! ## Floating-point values -/

/-- A value of C++ type `float`: a finite number, an infinity, or not-a-number. -/
inductive Flt where
  | fin (q : ℚ)
  | pinf
  | ninf
  | nan
deriving DecidableEq

namespace Flt

/-- Negation. -/
def neg : Flt → Flt
  | fin q => fin (-q)
  | pinf => ninf
  | ninf => pinf
  | nan => nan

/-- IEEE addition (exact on finite values). -/
def add : Flt → Flt → Flt
  | fin a, fin b => fin (a + b)
  | fin _, pinf => pinf
  | fin _, ninf => ninf
  | fin _, nan => nan
  | pinf, fin _ => pinf
  | pinf, pinf => pinf
  | pinf, ninf => nan
  | pinf, nan => nan
  | ninf, fin _ => ninf
  | ninf, pinf => nan
  | ninf, ninf => ninf
  | ninf, nan => nan
  | nan, _ => nan

/-- IEEE subtraction. -/
def sub (a b : Flt) : Flt := add a (neg b)

/-- The infinity with the sign of `q`, or `NaN` for `q = 0` (`0 * inf`, `0 / 0`). -/
def signedInf (q : ℚ) : Flt :=
  if q = 0 then nan else if 0 < q then pinf else ninf

/-- IEEE multiplication (exact on finite values). -/
def mul : Flt → Flt → Flt
  | fin a, fin b => fin (a * b)
  | fin a, pinf => signedInf a
  | fin a, ninf => signedInf (-a)
  | fin _, nan => nan
  | pinf, fin b => signedInf b
  | pinf, pinf => pinf
  | pinf, ninf => ninf
  | pinf, nan => nan
  | ninf, fin b => signedInf (-b)
  | ninf, pinf => ninf
  | ninf, ninf => pinf
  | ninf, nan => nan
  | nan, _ => nan

/-- IEEE division (exact on finite values); a zero divisor is `+0`. -/
def div : Flt → Flt → Flt
  | fin a, fin b => if b = 0 then signedInf a else fin (a / b)
  | fin _, pinf => fin 0
  | fin _, ninf => fin 0
  | fin _, nan => nan
  | pinf, fin b => if 0 ≤ b then pinf else ninf
  | pinf, pinf => nan
  | pinf, ninf => nan
  | pinf, nan => nan
  | ninf, fin b => if 0 ≤ b then ninf else pinf
  | ninf, pinf => nan
  | ninf, ninf => nan
  | ninf, nan => nan
  | nan, _ => nan

/-- Square root: `fsqrt` on the finite non-negative values, `NaN` on negative ones. -/
def sqrt (fsqrt : ℚ → ℚ) : Flt → Flt
  | fin q => if q < 0 then nan else fin (fsqrt q)
  | pinf => pinf
  | ninf => nan
  | nan => nan

/-- The comparison `a < b` of C++: false as soon as one side is `NaN`. -/
def lt : Flt → Flt → Bool
  | fin a, fin b => decide (a < b)
  | fin _, pinf => true
  | ninf, fin _ => true
  | ninf, pinf => true
  | _, _ => false

/-- Conversion of an `int` to `float`. -/
def ofInt (z : Int) : Flt := fin (z : ℚ)

instance : Zero Flt := ⟨fin 0⟩
instance : Add Flt := ⟨add⟩
instance : Sub Flt := ⟨sub⟩
instance : Mul Flt := ⟨mul⟩
instance : Div Flt := ⟨div⟩

/-- A finite value. -/
def isFinite : Flt → Bool
  | fin _ => true
  | _ => false

end Flt

/-- The constant `DBL_MAX` of `<cfloat>` stored in a `float` variable: it is larger than every
finite `float`, and the conversion gives `+inf`. -/
def DBL_MAX : Flt := Flt.pinf

/-! ## Sequences and clusters -/

/-- The record `Sequence` of `msa.h`, with the three fields `msa.cpp` uses. -/
structure Sequence where
  seq : String
  id : String
  index : Int
deriving DecidableEq

/-- A cluster is a `vector<Sequence>`. -/
abbrev Cluster := List Sequence

/-- The method `push_back` of `std::vector`. -/
def push_back {α : Type} (v : List α) (x : α) : List α := v ++ [x]

/-- Element `v[i]` of a `vector<float>` at an `int` position; `NaN` stands for the undefined
content of an out-of-range read. -/
def readF (v : List Flt) (i : Int) : Flt :=
  if 0 ≤ i ∧ i < (v.length : Int) then v.getD i.toNat Flt.nan else Flt.nan

/-- Element `v[i]` of a `vector<vector<Sequence>>` at an `int` position (the empty cluster
outside the vector). -/
def clusterAt (v : List Cluster) (i : Int) : Cluster :=
  if 0 ≤ i ∧ i < (v.length : Int) then v.getD i.toNat [] else []

/-! ## `merge_clusters` -/

/-- The 4-way unrolled copy loop of `merge_clusters`:
`for (i = 0; i < (int) cl.size() - 3; i += 4)` with four `push_back`s. Returns the final
value of `i` and the cluster built so far. -/
def merge_unrolled (cl : Cluster) (i : Nat) (newCluster : Cluster) : Nat × Cluster :=
  if h : (i : Int) < (cl.length : Int) - 3 then
    have h3 : i + 3 < cl.length := by omega
    merge_unrolled cl (i + 4)
      (push_back (push_back (push_back (push_back newCluster cl[i]) cl[i + 1]) cl[i + 2])
        cl[i + 3])
  else (i, newCluster)
termination_by cl.length - i
decreasing_by omega

/-- The remainder loop of `merge_clusters`: `for (; i < (int) cl.size(); ++i)`. -/
def merge_rest (cl : Cluster) (i : Nat) (newCluster : Cluster) : Cluster :=
  if h : i < cl.length then
    merge_rest cl (i + 1) (push_back newCluster cl[i])
  else newCluster
termination_by cl.length - i
decreasing_by omega

/-- The function `merge_clusters`: both loops over `cToMerge1`, then both over `cToMerge2`. -/
def merge_clusters (cToMerge1 cToMerge2 : Cluster) : Cluster :=
  let newCluster : Cluster := []
  let r1 := merge_unrolled cToMerge1 0 newCluster
  let newCluster := merge_rest cToMerge1 r1.1 r1.2
  let r2 := merge_unrolled cToMerge2 0 newCluster
  merge_rest cToMerge2 r2.1 r2.2

/-! ## `seq_to_seq_distance` and `mean_difference` -/

/-- An `__m256` register: eight `float` lanes, lane 0 first. -/
abbrev M256 := Fin 8 → Flt

/-- The intrinsic `_mm256_set1_ps`: all eight lanes hold `x`. -/
def _mm256_set1_ps (x : Flt) : M256 := fun _ => x

/-- The intrinsic `_mm256_loadu_ps(&v[idx])`: lane `l` holds `v[idx + l]`. -/
def _mm256_loadu_ps (v : List Flt) (idx : Int) : M256 := fun l => readF v (idx + (l.val : Int))

/-- The intrinsic `_mm256_sub_ps`: lane-wise difference. -/
def _mm256_sub_ps (a b : M256) : M256 := fun l => a l - b l

/-- The intrinsic `_mm256_mul_ps`: lane-wise product. -/
def _mm256_mul_ps (a b : M256) : M256 := fun l => a l * b l

/-- The intrinsic `_mm256_add_ps`: lane-wise sum. -/
def _mm256_add_ps (a b : M256) : M256 := fun l => a l + b l

/-- The intrinsic `_mm256_hadd_ps`: sums of adjacent lanes, taken from `a` and `b` in turn
within each 128-bit half. -/
def _mm256_hadd_ps (a b : M256) : M256 := fun l =>
  match l with
  | 0 => a 0 + a 1
  | 1 => a 2 + a 3
  | 2 => b 0 + b 1
  | 3 => b 2 + b 3
  | 4 => a 4 + a 5
  | 5 => a 6 + a 7
  | 6 => b 4 + b 5
  | 7 => b 6 + b 7

/-- One 128-bit half chosen by a 4-bit control of `_mm256_permute2f128_ps`: bit 3 zeroes the
half, bits 1..0 pick the low or high half of `a` or of `b`; `k` is the lane within the half. -/
def select128 (a b : M256) (ctl : Nat) (k : Fin 4) : Flt :=
  if ctl / 8 % 2 = 1 then 0
  else match ctl % 4 with
    | 0 => a (Fin.castLE (by decide) k)
    | 1 => a (Fin.natAdd 4 k)
    | 2 => b (Fin.castLE (by decide) k)
    | _ => b (Fin.natAdd 4 k)

/-- The intrinsic `_mm256_permute2f128_ps(a, b, imm8)`: the low half of the result is chosen by
bits 3..0 of `imm8`, the high half by bits 7..4. -/
def _mm256_permute2f128_ps (a b : M256) (imm8 : Nat) : M256 := fun l =>
  if h : l.val < 4 then select128 a b (imm8 % 16) ⟨l.val, h⟩
  else select128 a b (imm8 / 16 % 16) ⟨l.val - 4, by omega⟩

/-- The function `seq_to_seq_distance`: `chunkCount` eight-lane chunks accumulated in `dist`,
the horizontal reduction into lane 0 (`distSum[0]`), and the scalar loop over the
`numSeqs % 8` remaining columns. -/
def seq_to_seq_distance (seq1Index seq2Index : Int) (distanceMatrix : List Flt)
    (chunkCount numSeqs : Int) : Flt :=
  let dist : M256 := _mm256_set1_ps 0
  let dist : M256 := (List.range chunkCount.toNat).foldl (fun (dist : M256) (k : Nat) =>
    let vec1Index : Int := seq1Index * numSeqs + (k : Int) * 8
    let vec2Index : Int := seq2Index * numSeqs + (k : Int) * 8
    let vec1Dists := _mm256_loadu_ps distanceMatrix vec1Index
    let vec2Dists := _mm256_loadu_ps distanceMatrix vec2Index
    let diff := _mm256_sub_ps vec1Dists vec2Dists
    let square := _mm256_mul_ps diff diff
    _mm256_add_ps dist square) dist
  let dist := _mm256_hadd_ps dist dist
  let dist := _mm256_hadd_ps dist dist
  let distV2 := _mm256_permute2f128_ps dist dist 1
  let dist := _mm256_add_ps dist distV2
  let remaining : Int := numSeqs.tmod 8
  let startAt : Int := 8 * chunkCount
  (List.range remaining.toNat).foldl (fun (distSum0 : Flt) (i : Nat) =>
    let d : Flt := readF distanceMatrix (seq1Index * numSeqs + (startAt + (i : Int)))
      - readF distanceMatrix (seq2Index * numSeqs + (startAt + (i : Int)))
    let d := d * d
    distSum0 + d) (dist 0)

/-- The squared embedding distance as the spec writes it: the plain scalar sum over
`k = 0 .. N-1` of `(matrix[i*N+k] - matrix[j*N+k])²`, one column after the other. -/
def squaredEmbeddingDistance (i j : Int) (matrix : List Flt) (N : Int) : Flt :=
  (List.range N.toNat).foldl (fun (acc : Flt) (k : Nat) =>
    acc + (readF matrix (i * N + (k : Int)) - readF matrix (j * N + (k : Int)))
      * (readF matrix (i * N + (k : Int)) - readF matrix (j * N + (k : Int)))) 0

/-- The function `mean_difference`: the loops `for (i = 0; i < c1Size; ++i)` and
`for (j = 0; j < c2Size; ++j)` visit the sequences of `c1` and of `c2` in order and add the
square root of their distance to `mean`; the sum is divided by the `int` product
`c1Size * c2Size`. -/
def mean_difference (fsqrt : ℚ → ℚ) (c1 c2 : Cluster) (numSeqs : Int)
    (distanceMatrix : List Flt) : Flt :=
  let mean : Flt := 0
  let c1Size : Int := c1.length
  let c2Size : Int := c2.length
  let chunkCount : Int := numSeqs.tdiv 8
  let mean := c1.foldl (fun mean seq1 =>
    let seq1Index := seq1.index
    c2.foldl (fun mean seq2 =>
      let seq2Index := seq2.index
      mean + Flt.sqrt fsqrt
        (seq_to_seq_distance seq1Index seq2Index distanceMatrix chunkCount numSeqs)) mean) mean
  mean / Flt.ofInt (c1Size * c2Size)

/-- The linkage distance as the spec writes it: the sum over every pair of a sequence of `A`
and a sequence of `B` of the square root of their squared distance, divided by `|A| * |B|`. -/
def linkageDistance (fsqrt : ℚ → ℚ) (A B : Cluster) (N : Int) (matrix : List Flt) : Flt :=
  ((A.map (fun a => (B.map (fun b =>
      Flt.sqrt fsqrt (seq_to_seq_distance a.index b.index matrix (N.tdiv 8) N))).sum)).sum)
    / Flt.ofInt ((A.length : Int) * (B.length : Int))

/-! ## `find_closest_clusters` -/

/-- The four results `find_closest_clusters` writes through its reference and pointer
parameters. -/
structure Closest where
  cToMerge1 : Cluster
  idxC1 : Int
  cToMerge2 : Cluster
  idxC2 : Int
deriving DecidableEq

/-- The local variables of a worker of `find_closest_clusters`. -/
structure LocalBest where
  localMostSimilar : Flt
  localC1Idx : Int
  localC2Idx : Int
deriving DecidableEq

/-- The body of the inner loop of `find_closest_clusters` for the pair `(i, j)`: the strict
comparison `dist < localMostSimilar` and the update. -/
def closest_visit (fsqrt : ℚ → ℚ) (clusters : List Cluster) (numSeqs : Int)
    (distanceMatrix : List Flt) (loc : LocalBest) (i j : Nat) : LocalBest :=
  let dist := mean_difference fsqrt (clusterAt clusters i) (clusterAt clusters j) numSeqs
    distanceMatrix
  if Flt.lt dist loc.localMostSimilar then
    { localMostSimilar := dist, localC1Idx := i, localC2Idx := j }
  else loc

/-- The two nested loops of `find_closest_clusters` run by one worker:
`for (i = 0; i < numClusters; ++i) for (j = i + 1; j < numClusters; ++j)`. -/
def closest_scan (fsqrt : ℚ → ℚ) (numClusters : Int) (clusters : List Cluster) (numSeqs : Int)
    (distanceMatrix : List Flt) (loc : LocalBest) : LocalBest :=
  (List.range numClusters.toNat).foldl (fun loc i =>
    (List.range' (i + 1) (numClusters.toNat - (i + 1))).foldl (fun loc j =>
      closest_visit fsqrt clusters numSeqs distanceMatrix loc i j) loc) loc

/-- The function `find_closest_clusters` run by a single worker: the scan of all pairs, then
the critical section that publishes the local best when it is below `mostSimilar`. `out` holds
the values of the four result parameters on entry; they are returned unchanged when the
critical section does not write them. -/
def find_closest_clusters (fsqrt : ℚ → ℚ) (numClusters : Int) (clusters : List Cluster)
    (numSeqs : Int) (distanceMatrix : List Flt) (out : Closest) : Closest :=
  let mostSimilar : Flt := DBL_MAX
  let loc : LocalBest := { localMostSimilar := DBL_MAX, localC1Idx := -1, localC2Idx := -1 }
  let loc := closest_scan fsqrt numClusters clusters numSeqs distanceMatrix loc
  if Flt.lt loc.localMostSimilar mostSimilar then
    { cToMerge1 := clusterAt clusters loc.localC1Idx
      cToMerge2 := clusterAt clusters loc.localC2Idx
      idxC1 := loc.localC1Idx
      idxC2 := loc.localC2Idx }
  else out

/-! ## `UPGMA` -/

/-- Modelled from the spec: `align_clusters` is declared in `msa.h` and defined outside
`msa.cpp`. The spec says of this external pairwise aligner that it has no effect on the
clustering and that the sequence lists enter the merged cluster unchanged, so the model
returns both clusters as they were passed. -/
def align_clusters (cToMerge1 cToMerge2 : Cluster) (_subMatrix : List Int) :
    Cluster × Cluster :=
  (cToMerge1, cToMerge2)

/-- The call `v.erase(v.begin() + i)` for an `int` position `i`. -/
def erase {α : Type} (v : List α) (i : Int) : List α :=
  if 0 ≤ i then v.eraseIdx i.toNat else v

/-- The variables of `UPGMA` that live across iterations of its loop. -/
structure UState where
  numClusters : Int
  clusters : List Cluster
deriving DecidableEq

/-- One iteration of the loop of `UPGMA`: the search, the alignment, the two erases (the
larger position first), the merge, the `push_back` and the decrement of `numClusters`. -/
def UPGMA_step (fsqrt : ℚ → ℚ) (numSeqs : Int) (distanceMatrix : List Flt)
    (subMatrix : List Int) (st : UState) : UState :=
  let out : Closest := { cToMerge1 := [], idxC1 := 0, cToMerge2 := [], idxC2 := 0 }
  let out := find_closest_clusters fsqrt st.numClusters st.clusters numSeqs distanceMatrix out
  let aligned := align_clusters out.cToMerge1 out.cToMerge2 subMatrix
  let clusters :=
    if out.idxC1 > out.idxC2 then erase (erase st.clusters out.idxC1) out.idxC2
    else erase (erase st.clusters out.idxC2) out.idxC1
  let newCluster := merge_clusters aligned.1 aligned.2
  { numClusters := st.numClusters - 1, clusters := push_back clusters newCluster }

/-- The loop `while (numClusters > 1)` of `UPGMA`, returning the state after each iteration,
in order: the list has one entry per execution of the loop body. -/
def UPGMA_loop (fsqrt : ℚ → ℚ) (numSeqs : Int) (distanceMatrix : List Flt)
    (subMatrix : List Int) (st : UState) : List UState :=
  if st.numClusters > 1 then
    UPGMA_step fsqrt numSeqs distanceMatrix subMatrix st ::
      UPGMA_loop fsqrt numSeqs distanceMatrix subMatrix
        (UPGMA_step fsqrt numSeqs distanceMatrix subMatrix st)
  else []
termination_by st.numClusters.toNat
decreasing_by simp only [UPGMA_step]; omega

/-- The state of `UPGMA` on entry: `numClusters = clusters.size()`. -/
def UPGMA_init (clusters : List Cluster) : UState :=
  { numClusters := clusters.length, clusters := clusters }

/-- The states after each iteration of `UPGMA` started on `clusters` (`numSeqs` is the
initial number of clusters). -/
def UPGMA_trace (fsqrt : ℚ → ℚ) (clusters : List Cluster) (distanceMatrix : List Flt)
    (subMatrix : List Int) : List UState :=
  UPGMA_loop fsqrt (clusters.length : Int) distanceMatrix subMatrix (UPGMA_init clusters)

/-- The function `UPGMA`: the working set `clusters` when the loop has ended. -/
def UPGMA (fsqrt : ℚ → ℚ) (clusters : List Cluster) (distanceMatrix : List Flt)
    (subMatrix : List Int) : List Cluster :=
  ((UPGMA_trace fsqrt clusters distanceMatrix subMatrix).getLastD (UPGMA_init clusters)).clusters

/-- The pairs `(i, j)` with `i < j < n`, in the order the nested loops of
`find_closest_clusters` visit them. -/
def pairsOf (n : Nat) : List (Nat × Nat) :=
  (List.range n).flatMap (fun i => (List.range' (i + 1) (n - (i + 1))).map (fun j => (i, j)))

/-- The value `mean_difference(clusters[i], clusters[j], numSeqs, distanceMatrix)` the scan
computes for the pair `p = (i, j)`. -/
def pairDist (fsqrt : ℚ → ℚ) (clusters : List Cluster) (numSeqs : Int) (distanceMatrix : List Flt)
    (p : Nat × Nat) : Flt :=
  mean_difference fsqrt (clusterAt clusters p.1) (clusterAt clusters p.2) numSeqs distanceMatrix

/-- Addition of `float` values is associative and commutative in this model and `0` is
neutral: the special values absorb, and finite values add exactly. -/
instance : AddCommMonoid Flt where
  add := Flt.add
  zero := Flt.fin 0
  nsmul := nsmulRec
  add_assoc := by
    intro a b c
    show Flt.add (Flt.add a b) c = Flt.add a (Flt.add b c)
    cases a <;> cases b <;> cases c <;> simp [Flt.add, add_assoc]
  zero_add := by
    intro a
    show Flt.add (Flt.fin 0) a = a
    cases a <;> simp [Flt.add]
  add_zero := by
    intro a
    show Flt.add a (Flt.fin 0) = a
    cases a <;> simp [Flt.add]
  add_comm := by
    intro a b
    show Flt.add a b = Flt.add b a
    cases a <;> cases b <;> simp [Flt.add, add_comm]

/-- The term of column `k` in the squared distance of rows `i` and `j`: the square of
`matrix[i*N+k] - matrix[j*N+k]`. -/
def sqTerm (i j : Int) (matrix : List Flt) (N : Int) (k : Nat) : Flt :=
  (readF matrix (i * N + (k : Int)) - readF matrix (j * N + (k : Int)))
    * (readF matrix (i * N + (k : Int)) - readF matrix (j * N + (k : Int)))

/-- A sample value of the parameter `fsqrt`, for evaluating the model on concrete inputs: the
integer square root of the integer part (exact on perfect squares). -/
def sqrtFloor (q : ℚ) : ℚ := ((Nat.sqrt (Int.toNat ⌊q⌋) : Nat) : ℚ)

/-- A sequence with index `k`, for evaluating the model on concrete inputs. -/
def sampleSeq (k : Int) : Sequence := { seq := "", id := "", index := k }

/-! ## `make_sub_matrix` -/

/-- Modelled from the spec: the constant `NUM_LETTERS` of `msa.h`, the number of amino-acid
letters; the spec gives the 20 standard codes, and `aOrder` has 20 entries. -/
def NUM_LETTERS : Nat := 20

/-- The array `aOrder` of `make_sub_matrix`: the letter codes in the order of the rows of the
BLOSUM table. -/
def aOrder : List Int :=
  [65, 82, 78, 68, 67, 81, 69, 71, 72, 73, 76, 75, 77, 70, 80, 83, 84, 87, 89, 86]

/-- Element `v[i]` of an `int` array (0 outside the array). -/
def intAt (v : List Int) (i : Nat) : Int := v.getD i 0

/-- The assignment `v[idx] = x` on a `vector<int>` at an `int` position. -/
def writeAt (v : List Int) (idx : Int) (x : Int) : List Int :=
  if 0 ≤ idx then v.set idx.toNat x else v

/-- A 32-bit lane: the value of `x` wrapped to the range of a signed 32-bit integer. -/
def wrap32 (x : Int) : Int := (x + 2147483648) % 4294967296 - 2147483648

/-- An `__m256i` register used as eight signed 32-bit lanes, lane 0 first. -/
abbrev M256i := Fin 8 → Int

/-- The intrinsic `_mm256_set1_epi32`: all eight lanes hold `x`. -/
def _mm256_set1_epi32 (x : Int) : M256i := fun _ => wrap32 x

/-- The intrinsic `_mm256_add_epi32`: lane-wise sum, wrapped to 32 bits. -/
def _mm256_add_epi32 (a b : M256i) : M256i := fun l => wrap32 (a l + b l)

/-- The intrinsic `_mm256_mullo_epi32`: the low 32 bits of the lane-wise product. -/
def _mm256_mullo_epi32 (a b : M256i) : M256i := fun l => wrap32 (a l * b l)

/-- The intrinsic `_mm256_loadu_si256(&arr[j])` on an `int` array: lane `l` holds
`arr[j + l]`. -/
def _mm256_loadu_si256 (arr : Nat → Int) (j : Nat) : M256i := fun l => arr (j + l.val)

/-- The values of `j` in the loop `for (int j = 0; j < NUM_LETTERS - 8; j += 8)`. -/
def vecStarts : List Nat := (List.range ((NUM_LETTERS - 8 + 7) / 8)).map (fun t => 8 * t)

/-- The function `make_sub_matrix`. The header constants `ASCII_OFFSET`, `ROW_LEN`,
`MATRIX_SIZE` and the table `blosum` of `matrix.h` are parameters. For each letter `i` the
vector loop computes eight positions and stores eight scores, and the scalar loop
`for (int j = 16; j < NUM_LETTERS; j++)` stores the remaining ones. -/
def make_sub_matrix (ASCII_OFFSET ROW_LEN : Int) (MATRIX_SIZE : Nat) (blosum : Nat → Nat → Int) :
    List Int :=
  let subMatrix : List Int := List.replicate MATRIX_SIZE 0
  let offset := _mm256_set1_epi32 ASCII_OFFSET
  let rowLen := _mm256_set1_epi32 ROW_LEN
  (List.range NUM_LETTERS).foldl (fun (subMatrix : List Int) (i : Nat) =>
    let subMatrix := vecStarts.foldl (fun (subMatrix : List Int) (j : Nat) =>
      let acidI := _mm256_set1_epi32 (intAt aOrder i)
      let matPosI := _mm256_add_epi32 acidI offset
      let matPosRow := _mm256_mullo_epi32 matPosI rowLen
      let acidJ := _mm256_loadu_si256 (intAt aOrder) j
      let matPosJ := _mm256_add_epi32 acidJ offset
      let indices := _mm256_add_epi32 matPosRow matPosJ
      let indexArr := indices
      let scores := _mm256_loadu_si256 (blosum i) j
      let scoreArr := scores
      let subMatrix := writeAt subMatrix (indexArr 0) (scoreArr 0)
      let subMatrix := writeAt subMatrix (indexArr 1) (scoreArr 1)
      let subMatrix := writeAt subMatrix (indexArr 2) (scoreArr 2)
      let subMatrix := writeAt subMatrix (indexArr 3) (scoreArr 3)
      let subMatrix := writeAt subMatrix (indexArr 4) (scoreArr 4)
      let subMatrix := writeAt subMatrix (indexArr 5) (scoreArr 5)
      let subMatrix := writeAt subMatrix (indexArr 6) (scoreArr 6)
      let subMatrix := writeAt subMatrix (indexArr 7) (scoreArr 7)
      subMatrix) subMatrix
    (List.range' 16 (NUM_LETTERS - 16)).foldl (fun (subMatrix : List Int) (j : Nat) =>
      writeAt subMatrix
        ((intAt aOrder i + ASCII_OFFSET) * ROW_LEN + (intAt aOrder j + ASCII_OFFSET))
        (blosum i j)) subMatrix) subMatrix

/-- The position `(aOrder[i] + ASCII_OFFSET) * ROW_LEN + (aOrder[j] + ASCII_OFFSET)` of the
score of the letters `i` and `j`. -/
def subPos (ASCII_OFFSET ROW_LEN : Int) (i j : Nat) : Int :=
  (intAt aOrder i + ASCII_OFFSET) * ROW_LEN + (intAt aOrder j + ASCII_OFFSET)

/-- A second sample value of the parameter `fsqrt`, positive on positive values and 0 at 0:
one Heron step from 1, `(q + 1) / 2`, an upper bound of the square root. -/
def sqrtHeron (q : ℚ) : ℚ := if q ≤ 0 then 0 else (q + 1) / 2

/-! ## The matrix reads of `seq_to_seq_distance` -/

/-- The reads of `distanceMatrix` performed by `seq_to_seq_distance`, in order, each as the
pair of the sequence index whose row is read and the position read: for every chunk `k` the
eight lanes of the load at `vec1Index` and of the load at `vec2Index`, then for every tail
iteration `i` the two reads at `seqIndex * numSeqs + (startAt + i)`. -/
def seq_to_seq_reads (seq1Index seq2Index : Int) (chunkCount numSeqs : Int) : List (Int × Int) :=
  (List.range chunkCount.toNat).flatMap (fun (k : Nat) =>
    (List.range 8).map (fun (l : Nat) =>
      (seq1Index, seq1Index * numSeqs + (k : Int) * 8 + (l : Int)))
    ++ (List.range 8).map (fun (l : Nat) =>
      (seq2Index, seq2Index * numSeqs + (k : Int) * 8 + (l : Int))))
  ++ (List.range (numSeqs.tmod 8).toNat).flatMap (fun (i : Nat) =>
    [(seq1Index, seq1Index * numSeqs + (8 * chunkCount + (i : Int))),
     (seq2Index, seq2Index * numSeqs + (8 * chunkCount + (i : Int)))])

/-- The reads of `distanceMatrix` performed by `mean_difference`: those of the call of
`seq_to_seq_distance` for every sequence of `c1` and every sequence of `c2`, with
`chunkCount = numSeqs / 8`. -/
def mean_difference_reads (c1 c2 : Cluster) (numSeqs : Int) : List (Int × Int) :=
  c1.flatMap (fun seq1 => c2.flatMap (fun seq2 =>
    seq_to_seq_reads seq1.index seq2.index (numSeqs.tdiv 8) numSeqs))

/-! ## `read_fasta_file` -/

/-- The exit status `FILE_ERROR`, with which `read_fasta_file` ends the program; the header
that gives the constant its number is not part of `msa.cpp`, so it is kept by name. -/
inductive ExitStatus where
  | FILE_ERROR
deriving DecidableEq

/-- The local variables of `read_fasta_file` that its loop over the lines changes. -/
structure FastaState where
  seqs : List Sequence
  currentSeq : String
  currentId : String
  seqCount : Int

/-- The character `line[0]` of a `std::string`: the first character, and the terminating
`'\0'` of an empty line. -/
def firstChar (line : String) : Char :=
  match line.data with
  | [] => Char.ofNat 0
  | ch :: _ => ch

/-- One iteration of `while (getline(file, line))`: a line starting with `>` saves the current
sequence when it is not empty (with `index = seqCount`, then `seqCount++` and
`currentSeq.clear()`) and becomes the new `currentId`; every other line is appended to
`currentSeq`. -/
def read_fasta_line (st : FastaState) (line : String) : FastaState :=
  if firstChar line = '>' then
    let st : FastaState :=
      if st.currentSeq.isEmpty = false then
        { seqs := push_back st.seqs
            { seq := st.currentSeq, id := st.currentId, index := st.seqCount },
          currentSeq := "",
          currentId := st.currentId,
          seqCount := st.seqCount + 1 }
      else st
    { st with currentId := line }
  else
    { st with currentSeq := st.currentSeq ++ line }

/-- The function `read_fasta_file`; the argument is `none` when the file could not be opened
and otherwise holds the lines `getline` delivers. A file that is not open ends the program
with `FILE_ERROR`; otherwise the loop runs over the lines and the record of `currentSeq`,
`currentId` and `seqCount` is pushed after the loop, whatever they hold. -/
def read_fasta_file (file : Option (List String)) : Except ExitStatus (List Sequence) :=
  match file with
  | none => Except.error ExitStatus.FILE_ERROR
  | some lines =>
    let st : FastaState := lines.foldl read_fasta_line
      { seqs := [], currentSeq := "", currentId := "", seqCount := 0 }
    Except.ok (push_back st.seqs
      { seq := st.currentSeq, id := st.currentId, index := st.seqCount })

theorem merge_rest_eq (c : Cluster) (n : Nat) :
    ∀ (i : Nat) (acc : Cluster), c.length - i = n → merge_rest c i acc = acc ++ c.drop i := by
  induction n with
  | zero =>
    intro i acc hn
    rw [merge_rest]
    have hi : ¬ i < c.length := by omega
    simp [hi, List.drop_eq_nil_of_le (show c.length ≤ i by omega)]
  | succ n ih =>
    intro i acc hn
    rw [merge_rest]
    have hi : i < c.length := by omega
    simp only [hi, dite_true]
    rw [ih (i + 1) _ (by omega), push_back, List.drop_eq_getElem_cons hi]
    simp

theorem merge_unrolled_rest (c : Cluster) (n : Nat) :
    ∀ (i : Nat) (acc : Cluster), c.length - i ≤ n →
      merge_rest c (merge_unrolled c i acc).1 (merge_unrolled c i acc).2 = acc ++ c.drop i := by
  induction n with
  | zero =>
    intro i acc hn
    rw [merge_unrolled]
    have hi : ¬ (i : Int) < (c.length : Int) - 3 := by omega
    simp only [hi, dite_false]
    exact merge_rest_eq c _ i acc rfl
  | succ n ih =>
    intro i acc hn
    rw [merge_unrolled]
    by_cases hi : (i : Int) < (c.length : Int) - 3
    · simp only [hi, dite_true]
      have h0 : i < c.length := by omega
      have h1 : i + 1 < c.length := by omega
      have h2 : i + 2 < c.length := by omega
      have h3 : i + 3 < c.length := by omega
      rw [ih (i + 4) _ (by omega)]
      rw [List.drop_eq_getElem_cons h0, List.drop_eq_getElem_cons h1,
        List.drop_eq_getElem_cons h2, List.drop_eq_getElem_cons h3]
      simp [push_back]
    · simp only [hi, dite_false]
      exact merge_rest_eq c _ i acc rfl

theorem merge_clusters_concat (A B : Cluster) : merge_clusters A B = A ++ B := by
  unfold merge_clusters
  simp only
  rw [merge_unrolled_rest A _ 0 [] (le_refl _), merge_unrolled_rest B _ 0 _ (le_refl _)]
  simp

/-- C3: `merge_clusters(A, B)` is the list `A` followed by `B`, for clusters of any lengths:
the unrolled loop and the remainder loop copy every element once and in order. -/
theorem merge_clusters_eq_append (A B : Cluster) : merge_clusters A B = A ++ B := by
  unfold merge_clusters
  have hA := merge_unrolled_rest A A.length 0 [] (le_refl _)
  have hB := merge_unrolled_rest B B.length 0 (A ++ []) (le_refl _)
  simp only [List.nil_append, List.drop_zero, List.append_nil] at hA hB
  simp only [hA, hB]

/-! ### Comparison of `float` values -/

theorem Flt.lt_irrefl (a : Flt) : Flt.lt a a = false := by
  cases a <;> simp [Flt.lt]

theorem Flt.lt_trans {a b c : Flt} (hab : Flt.lt a b = true) (hbc : Flt.lt b c = true) :
    Flt.lt a c = true := by
  cases a <;> cases b <;> cases c <;> simp_all [Flt.lt]
  exact hab.trans hbc

theorem Flt.not_lt_of_lt {q p v : Flt} (hq : Flt.lt q v = false) (hp : Flt.lt p v = true) :
    Flt.lt q p = false ∧ q ≠ p := by
  constructor
  · cases h : Flt.lt q p
    · rfl
    · rw [Flt.lt_trans h hp] at hq
      exact absurd hq (by simp)
  · rintro rfl
    rw [hp] at hq
    exact absurd hq (by simp)

/-! ### The scan of `find_closest_clusters` -/

theorem foldl_nested {α β γ : Type} (f : β → α → γ → β) (g : α → List γ) (l : List α) (b : β) :
    l.foldl (fun b a => (g a).foldl (fun b c => f b a c) b) b
      = (l.flatMap (fun a => (g a).map (fun c => (a, c)))).foldl (fun b p => f b p.1 p.2) b := by
  induction l generalizing b with
  | nil => rfl
  | cons a l ih =>
    simp only [List.foldl_cons, List.flatMap_cons, List.foldl_append, List.foldl_map]
    exact ih _

theorem closest_scan_eq (fsqrt : ℚ → ℚ) (numClusters : Int) (clusters : List Cluster)
    (numSeqs : Int) (M : List Flt) (loc : LocalBest) :
    closest_scan fsqrt numClusters clusters numSeqs M loc
      = (pairsOf numClusters.toNat).foldl
          (fun loc p => closest_visit fsqrt clusters numSeqs M loc p.1 p.2) loc := by
  unfold closest_scan pairsOf
  exact foldl_nested (fun loc i j => closest_visit fsqrt clusters numSeqs M loc i j) _ _ _

theorem mem_pairsOf {n : Nat} {p : Nat × Nat} : p ∈ pairsOf n ↔ p.1 < p.2 ∧ p.2 < n := by
  obtain ⟨i, j⟩ := p
  simp only [pairsOf, List.mem_flatMap, List.mem_range, List.mem_map, List.mem_range'_1,
    Prod.mk.injEq]
  constructor
  · rintro ⟨a, ha, b, hb, rfl, rfl⟩
    omega
  · rintro ⟨h1, h2⟩
    exact ⟨i, by omega, j, by omega, rfl, rfl⟩

theorem closest_visit_eq (fsqrt : ℚ → ℚ) (clusters : List Cluster) (numSeqs : Int)
    (M : List Flt) (loc : LocalBest) (p : Nat × Nat) :
    closest_visit fsqrt clusters numSeqs M loc p.1 p.2
      = if Flt.lt (pairDist fsqrt clusters numSeqs M p) loc.localMostSimilar then
          { localMostSimilar := pairDist fsqrt clusters numSeqs M p,
            localC1Idx := (p.1 : Int), localC2Idx := (p.2 : Int) }
        else loc := rfl

/-- The state of a worker after it has visited the pairs of `L`: either no pair was below the
initial value, or the state holds a pair `p` of `L` that is below the initial value, that no
pair of `L` is below, and that no earlier pair of `L` equals in distance. -/
theorem scan_fold_inv (fsqrt : ℚ → ℚ) (clusters : List Cluster) (numSeqs : Int) (M : List Flt)
    (loc0 : LocalBest) (L : List (Nat × Nat)) :
    ((L.foldl (fun loc p => closest_visit fsqrt clusters numSeqs M loc p.1 p.2) loc0 = loc0) ∧
      ∀ q ∈ L, Flt.lt (pairDist fsqrt clusters numSeqs M q) loc0.localMostSimilar = false) ∨
    (∃ L1 p L2, L = L1 ++ p :: L2 ∧
      L.foldl (fun loc p => closest_visit fsqrt clusters numSeqs M loc p.1 p.2) loc0
        = { localMostSimilar := pairDist fsqrt clusters numSeqs M p,
            localC1Idx := (p.1 : Int), localC2Idx := (p.2 : Int) } ∧
      Flt.lt (pairDist fsqrt clusters numSeqs M p) loc0.localMostSimilar = true ∧
      (∀ q ∈ L1, Flt.lt (pairDist fsqrt clusters numSeqs M q)
          (pairDist fsqrt clusters numSeqs M p) = false ∧
        pairDist fsqrt clusters numSeqs M q ≠ pairDist fsqrt clusters numSeqs M p) ∧
      ∀ q ∈ L2, Flt.lt (pairDist fsqrt clusters numSeqs M q)
          (pairDist fsqrt clusters numSeqs M p) = false) := by
  induction L using List.reverseRecOn with
  | nil => left; simp
  | append_singleton L x ih =>
    rw [List.foldl_append, List.foldl_cons, List.foldl_nil, closest_visit_eq]
    rcases ih with ⟨hr, hall⟩ | ⟨L1, p, L2, hL, hr, hp, h1, h2⟩
    · rw [hr]
      by_cases hx : Flt.lt (pairDist fsqrt clusters numSeqs M x) loc0.localMostSimilar = true
      · right
        refine ⟨L, x, [], rfl, by simp [hx], hx, ?_, by simp⟩
        intro q hq
        exact Flt.not_lt_of_lt (hall q hq) hx
      · left
        simp only [hx]
        refine ⟨by simp, ?_⟩
        intro q hq
        rcases List.mem_append.1 hq with h | h
        · exact hall q h
        · simp only [List.mem_singleton] at h
          subst h
          simpa using hx
    · rw [hr]
      by_cases hx : Flt.lt (pairDist fsqrt clusters numSeqs M x)
          (pairDist fsqrt clusters numSeqs M p) = true
      · right
        refine ⟨L, x, [], rfl, by simp [hx], Flt.lt_trans hx hp, ?_, by simp⟩
        intro q hq
        rw [hL] at hq
        rcases List.mem_append.1 hq with h | h
        · exact Flt.not_lt_of_lt (h1 q h).1 hx
        · rcases List.mem_cons.1 h with h | h
          · subst h
            exact Flt.not_lt_of_lt (Flt.lt_irrefl _) hx
          · exact Flt.not_lt_of_lt (h2 q h) hx
      · right
        refine ⟨L1, p, L2 ++ [x], by simp [hL], by simp [hx], hp, h1, ?_⟩
        intro q hq
        rcases List.mem_append.1 hq with h | h
        · exact h2 q h
        · simp only [List.mem_singleton] at h
          subst h
          simpa using hx

/-- The two outcomes of `find_closest_clusters`: no pair is below the initial `DBL_MAX` and the
result parameters keep their values, or the pair `p` found by the scan is written to them. -/
theorem find_closest_cases (fsqrt : ℚ → ℚ) (numClusters : Int) (clusters : List Cluster)
    (numSeqs : Int) (M : List Flt) (out0 : Closest) :
    (find_closest_clusters fsqrt numClusters clusters numSeqs M out0 = out0 ∧
      ∀ q ∈ pairsOf numClusters.toNat,
        Flt.lt (pairDist fsqrt clusters numSeqs M q) DBL_MAX = false) ∨
    (∃ L1 p L2, pairsOf numClusters.toNat = L1 ++ p :: L2 ∧
      find_closest_clusters fsqrt numClusters clusters numSeqs M out0
        = { cToMerge1 := clusterAt clusters (p.1 : Int), idxC1 := (p.1 : Int),
            cToMerge2 := clusterAt clusters (p.2 : Int), idxC2 := (p.2 : Int) } ∧
      Flt.lt (pairDist fsqrt clusters numSeqs M p) DBL_MAX = true ∧
      (∀ q ∈ L1, Flt.lt (pairDist fsqrt clusters numSeqs M q)
          (pairDist fsqrt clusters numSeqs M p) = false ∧
        pairDist fsqrt clusters numSeqs M q ≠ pairDist fsqrt clusters numSeqs M p) ∧
      ∀ q ∈ L2, Flt.lt (pairDist fsqrt clusters numSeqs M q)
          (pairDist fsqrt clusters numSeqs M p) = false) := by
  have key := scan_fold_inv fsqrt clusters numSeqs M
    { localMostSimilar := DBL_MAX, localC1Idx := -1, localC2Idx := -1 }
    (pairsOf numClusters.toNat)
  rcases key with ⟨hr, hall⟩ | ⟨L1, p, L2, hL, hr, hp, h1, h2⟩
  · left
    refine ⟨?_, hall⟩
    simp only [find_closest_clusters, closest_scan_eq, hr, Flt.lt_irrefl]
    simp
  · right
    refine ⟨L1, p, L2, hL, ?_, hp, h1, h2⟩
    simp only [find_closest_clusters, closest_scan_eq, hr]
    simp only at hp
    simp [hp]

theorem clusterAt_natCast (clusters : List Cluster) (i : Nat) (h : i < clusters.length) :
    clusterAt clusters (i : Int) = clusters[i] := by
  unfold clusterAt
  have h2 : (0 : Int) ≤ (i : Int) ∧ (i : Int) < (clusters.length : Int) := by omega
  simp [h2, List.getD_eq_getElem?_getD, List.getElem?_eq_getElem h]

theorem erase_natCast {α : Type} (v : List α) (i : Nat) : erase v (i : Int) = v.eraseIdx i := by
  simp [erase]

/-- The two outcomes of one iteration of `UPGMA`, for a state with
`numClusters = clusters.size()`: when `find_closest_clusters` selects no pair, the clusters at
positions 0 and 1 are erased and an empty cluster is appended; when it selects the pair
`p = (i, j)`, positions `j` and `i` are erased and `clusters[i]` followed by `clusters[j]` is
appended. -/
theorem UPGMA_step_cases (fsqrt : ℚ → ℚ) (numSeqs : Int) (M : List Flt) (sub : List Int)
    (st : UState) (hst : st.numClusters = (st.clusters.length : Int)) :
    (UPGMA_step fsqrt numSeqs M sub st
        = { numClusters := st.numClusters - 1,
            clusters := (st.clusters.eraseIdx 0).eraseIdx 0 ++ [[]] } ∧
      ∀ q ∈ pairsOf st.clusters.length,
        Flt.lt (pairDist fsqrt st.clusters numSeqs M q) DBL_MAX = false) ∨
    (∃ L1 p L2, ∃ (h1 : p.1 < st.clusters.length) (h2 : p.2 < st.clusters.length),
      pairsOf st.clusters.length = L1 ++ p :: L2 ∧ p.1 < p.2 ∧
      find_closest_clusters fsqrt st.numClusters st.clusters numSeqs M
          { cToMerge1 := [], idxC1 := 0, cToMerge2 := [], idxC2 := 0 }
        = { cToMerge1 := st.clusters[p.1], idxC1 := (p.1 : Int),
            cToMerge2 := st.clusters[p.2], idxC2 := (p.2 : Int) } ∧
      UPGMA_step fsqrt numSeqs M sub st
        = { numClusters := st.numClusters - 1,
            clusters := (st.clusters.eraseIdx p.2).eraseIdx p.1
              ++ [st.clusters[p.1] ++ st.clusters[p.2]] } ∧
      Flt.lt (pairDist fsqrt st.clusters numSeqs M p) DBL_MAX = true ∧
      (∀ q ∈ L1, Flt.lt (pairDist fsqrt st.clusters numSeqs M q)
          (pairDist fsqrt st.clusters numSeqs M p) = false ∧
        pairDist fsqrt st.clusters numSeqs M q ≠ pairDist fsqrt st.clusters numSeqs M p) ∧
      ∀ q ∈ L2, Flt.lt (pairDist fsqrt st.clusters numSeqs M q)
          (pairDist fsqrt st.clusters numSeqs M p) = false) := by
  have hn : st.numClusters.toNat = st.clusters.length := by omega
  rcases find_closest_cases fsqrt st.numClusters st.clusters numSeqs M
      { cToMerge1 := [], idxC1 := 0, cToMerge2 := [], idxC2 := 0 }
    with ⟨hr, hall⟩ | ⟨L1, p, L2, hL, hr, hp, h1, h2⟩
  · left
    rw [hn] at hall
    refine ⟨?_, hall⟩
    simp only [UPGMA_step, hr, align_clusters, merge_clusters_concat, push_back]
    simp [erase]
  · right
    rw [hn] at hL
    have hmem : p ∈ pairsOf st.clusters.length := by rw [hL]; simp
    have hlt := mem_pairsOf.1 hmem
    have hp1 : p.1 < st.clusters.length := by omega
    have hp2 : p.2 < st.clusters.length := hlt.2
    refine ⟨L1, p, L2, hp1, hp2, hL, hlt.1, ?_, ?_, hp, h1, h2⟩
    · rw [hr, clusterAt_natCast _ _ hp1, clusterAt_natCast _ _ hp2]
    · simp only [UPGMA_step, hr, align_clusters, merge_clusters_concat, push_back,
        clusterAt_natCast _ _ hp1, clusterAt_natCast _ _ hp2, erase_natCast]
      have hng : ¬ ((p.1 : Int) > (p.2 : Int)) := by omega
      simp [hng]

/-! ### The loop of `UPGMA` -/

theorem UPGMA_step_length (fsqrt : ℚ → ℚ) (numSeqs : Int) (M : List Flt) (sub : List Int)
    (st : UState) (hst : st.numClusters = (st.clusters.length : Int))
    (h2 : 2 ≤ st.clusters.length) :
    (UPGMA_step fsqrt numSeqs M sub st).clusters.length + 1 = st.clusters.length ∧
    (UPGMA_step fsqrt numSeqs M sub st).numClusters
      = ((UPGMA_step fsqrt numSeqs M sub st).clusters.length : Int) := by
  rcases UPGMA_step_cases fsqrt numSeqs M sub st hst with
    ⟨hr, -⟩ | ⟨L1, p, L2, hp1, hp2, -, hlt, -, hr, -⟩
  · rw [hr]
    simp only [List.length_append, List.length_eraseIdx, List.length_singleton]
    have h0 : 0 < st.clusters.length := by omega
    have h1 : 0 < st.clusters.length - 1 := by omega
    simp only [h0, h1, if_true]
    omega
  · rw [hr]
    simp only [List.length_append, List.length_eraseIdx, List.length_singleton]
    have h1 : p.1 < st.clusters.length - 1 := by omega
    simp only [hp2, h1, if_true]
    omega

theorem UPGMA_loop_trace (fsqrt : ℚ → ℚ) (numSeqs : Int) (M : List Flt) (sub : List Int)
    (n : Nat) : ∀ (st : UState), st.numClusters = (st.clusters.length : Int) →
      st.clusters.length = n + 1 →
      (UPGMA_loop fsqrt numSeqs M sub st).length = n ∧
      (∀ (k : Nat) (s : UState), (UPGMA_loop fsqrt numSeqs M sub st)[k]? = some s →
        s.clusters.length + (k + 1) = n + 1 ∧ s.numClusters = (s.clusters.length : Int)) ∧
      ((UPGMA_loop fsqrt numSeqs M sub st).getLastD st).clusters.length = 1 := by
  induction n with
  | zero =>
    intro st hst hlen
    rw [UPGMA_loop]
    have h : ¬ st.numClusters > 1 := by omega
    simp [h, hlen]
  | succ n ih =>
    intro st hst hlen
    rw [UPGMA_loop]
    have h : st.numClusters > 1 := by omega
    simp only [h, if_true]
    obtain ⟨hl, hn⟩ := UPGMA_step_length fsqrt numSeqs M sub st hst (by omega)
    obtain ⟨ih1, ih2, ih3⟩ := ih (UPGMA_step fsqrt numSeqs M sub st) hn (by omega)
    refine ⟨by simp [ih1], ?_, ?_⟩
    · intro k s hk
      cases k with
      | zero =>
        simp only [List.getElem?_cons_zero, Option.some.injEq] at hk
        subst hk
        exact ⟨by omega, hn⟩
      | succ k =>
        simp only [List.getElem?_cons_succ] at hk
        have := ih2 k s hk
        exact ⟨by omega, this.2⟩
    · rw [List.getLastD_cons]
      exact ih3

/-- C1: started on a working set of `N ≥ 1` clusters, with any distance matrix, `UPGMA`
executes its loop body exactly `N - 1` times; the state after the `(k+1)`-th execution has a
working set of `N - (k+1)` clusters, one less than before it, equal to the counter
`numClusters`; and on return the working set has size 1. -/
theorem UPGMA_merge_count (fsqrt : ℚ → ℚ) (clusters : List Cluster) (M : List Flt)
    (sub : List Int) (hN : 1 ≤ clusters.length) :
    (UPGMA_trace fsqrt clusters M sub).length = clusters.length - 1 ∧
    (∀ (k : Nat) (s : UState), (UPGMA_trace fsqrt clusters M sub)[k]? = some s →
      s.clusters.length + (k + 1) = clusters.length ∧
      s.numClusters = (s.clusters.length : Int)) ∧
    (UPGMA fsqrt clusters M sub).length = 1 := by
  obtain ⟨h1, h2, h3⟩ := UPGMA_loop_trace fsqrt (clusters.length : Int) M sub
    (clusters.length - 1) (UPGMA_init clusters) rfl
    (by simp only [UPGMA_init]; omega)
  refine ⟨h1, ?_, h3⟩
  intro k s hk
  have := h2 k s hk
  exact ⟨by omega, this.2⟩

theorem eraseIdx_eraseIdx_of_lt {α : Type} (W : List α) (a b : Nat) (hab : a < b)
    (hb : b < W.length) :
    (W.eraseIdx b).eraseIdx a = W.take a ++ (W.take b).drop (a + 1) ++ W.drop (b + 1) := by
  rw [List.eraseIdx_eq_take_drop_succ W b]
  rw [List.eraseIdx_append_of_lt_length (by simp; omega)]
  rw [List.eraseIdx_eq_take_drop_succ (W.take b) a, List.take_take]
  simp [Nat.min_eq_left (Nat.le_of_lt hab)]

/-- C8: when `find_closest_clusters` selects the positions `a < b` of the working set `W`, the
working set after the merge step is `W` without its elements at `a` and `b`, the others in
their order, followed by the new cluster `W[a] ++ W[b]` as last element. -/
theorem UPGMA_step_frame (fsqrt : ℚ → ℚ) (numSeqs : Int) (M : List Flt) (sub : List Int)
    (W : List Cluster) (a b : Nat) (hab : a < b)
    (h1 : (find_closest_clusters fsqrt (W.length : Int) W numSeqs M
      { cToMerge1 := [], idxC1 := 0, cToMerge2 := [], idxC2 := 0 }).idxC1 = (a : Int))
    (h2 : (find_closest_clusters fsqrt (W.length : Int) W numSeqs M
      { cToMerge1 := [], idxC1 := 0, cToMerge2 := [], idxC2 := 0 }).idxC2 = (b : Int)) :
    ∃ A B : Cluster, W[a]? = some A ∧ W[b]? = some B ∧
      (UPGMA_step fsqrt numSeqs M sub { numClusters := (W.length : Int), clusters := W }).clusters
        = W.take a ++ (W.take b).drop (a + 1) ++ W.drop (b + 1) ++ [A ++ B] := by
  rcases UPGMA_step_cases fsqrt numSeqs M sub { numClusters := (W.length : Int), clusters := W }
    rfl with ⟨-, hall⟩ | ⟨L1, p, L2, hp1, hp2, -, hlt, hfc, hr, -⟩
  · exfalso
    rcases find_closest_cases fsqrt (W.length : Int) W numSeqs M
      { cToMerge1 := [], idxC1 := 0, cToMerge2 := [], idxC2 := 0 } with
      ⟨hr, -⟩ | ⟨L1, p, L2, hL, -, hp, -, -⟩
    · rw [hr] at h1 h2
      simp only at h1 h2
      omega
    · have hmem : p ∈ pairsOf W.length := by
        have : p ∈ pairsOf ((W.length : Int)).toNat := by rw [hL]; simp
        simpa using this
      have := hall p hmem
      simp only at this
      rw [this] at hp
      exact absurd hp (by simp)
  · simp only at hfc hp1 hp2 hr
    rw [hfc] at h1 h2
    simp only [Nat.cast_inj] at h1 h2
    obtain ⟨p1, p2⟩ := p
    simp only at h1 h2 hp1 hp2 hlt hr
    subst h1 h2
    refine ⟨W[p1], W[p2], List.getElem?_eq_getElem hp1, List.getElem?_eq_getElem hp2, ?_⟩
    rw [hr]
    simp only
    rw [eraseIdx_eraseIdx_of_lt W p1 p2 hab hp2]

theorem foldl_add_eq_sum (g : Nat → Flt) (n : Nat) (a : Flt) :
    (List.range n).foldl (fun acc k => acc + g k) a = a + ∑ k ∈ Finset.range n, g k := by
  induction n with
  | zero => simp
  | succ n ih =>
    rw [List.range_succ, List.foldl_append, ih, Finset.sum_range_succ]
    simp [add_assoc]

theorem foldl_lanes (g : Nat → M256) (l : Fin 8) (ks : List Nat) (d : M256) :
    (ks.foldl (fun dist k => _mm256_add_ps dist (g k)) d) l
      = ks.foldl (fun acc k => acc + g k l) (d l) := by
  induction ks generalizing d with
  | nil => rfl
  | cons k ks ih =>
    simp only [List.foldl_cons]
    rw [ih]
    rfl

theorem sum_range_mul8 (f : Nat → Flt) (c : Nat) :
    ∑ k ∈ Finset.range (8 * c), f k
      = (((∑ k ∈ Finset.range c, f (8 * k + 0)) + (∑ k ∈ Finset.range c, f (8 * k + 1)))
          + ((∑ k ∈ Finset.range c, f (8 * k + 2)) + (∑ k ∈ Finset.range c, f (8 * k + 3))))
        + (((∑ k ∈ Finset.range c, f (8 * k + 4)) + (∑ k ∈ Finset.range c, f (8 * k + 5)))
          + ((∑ k ∈ Finset.range c, f (8 * k + 6)) + (∑ k ∈ Finset.range c, f (8 * k + 7)))) := by
  induction c with
  | zero => simp
  | succ c ih =>
    have h8 : 8 * (c + 1) = 8 * c + 7 + 1 := by ring
    rw [h8]
    simp only [Finset.sum_range_succ]
    rw [ih]
    simp only [Nat.add_zero]
    abel

theorem chunk_lane (i j : Int) (M : List Flt) (N : Int) (c : Nat) (l : Fin 8) :
    ((List.range c).foldl (fun (dist : M256) (k : Nat) =>
      _mm256_add_ps dist
        (_mm256_mul_ps
          (_mm256_sub_ps (_mm256_loadu_ps M (i * N + (k : Int) * 8))
            (_mm256_loadu_ps M (j * N + (k : Int) * 8)))
          (_mm256_sub_ps (_mm256_loadu_ps M (i * N + (k : Int) * 8))
            (_mm256_loadu_ps M (j * N + (k : Int) * 8))))) (_mm256_set1_ps 0)) l
      = ∑ k ∈ Finset.range c, sqTerm i j M N (8 * k + l.val) := by
  have h := foldl_lanes (fun (k : Nat) => _mm256_mul_ps
          (_mm256_sub_ps (_mm256_loadu_ps M (i * N + (k : Int) * 8))
            (_mm256_loadu_ps M (j * N + (k : Int) * 8)))
          (_mm256_sub_ps (_mm256_loadu_ps M (i * N + (k : Int) * 8))
            (_mm256_loadu_ps M (j * N + (k : Int) * 8)))) l (List.range c) (_mm256_set1_ps 0)
  rw [h, foldl_add_eq_sum]
  have h0 : (_mm256_set1_ps 0 : M256) l = 0 := rfl
  rw [h0, zero_add]
  apply Finset.sum_congr rfl
  intro k _
  simp only [_mm256_mul_ps, _mm256_sub_ps, _mm256_loadu_ps, sqTerm]
  have e1 : i * N + (k : Int) * 8 + (l.val : Int) = i * N + ((8 * k + l.val : Nat) : Int) := by
    push_cast; ring
  have e2 : j * N + (k : Int) * 8 + (l.val : Int) = j * N + ((8 * k + l.val : Nat) : Int) := by
    push_cast; ring
  rw [e1, e2]

theorem tail_fold (i j : Int) (M : List Flt) (N : Int) (c r : Nat) (d0 : Flt) :
    (List.range r).foldl (fun (distSum0 : Flt) (t : Nat) =>
      distSum0 + (readF M (i * N + (8 * (c : Int) + (t : Int)))
          - readF M (j * N + (8 * (c : Int) + (t : Int))))
        * (readF M (i * N + (8 * (c : Int) + (t : Int)))
          - readF M (j * N + (8 * (c : Int) + (t : Int))))) d0
      = d0 + ∑ t ∈ Finset.range r, sqTerm i j M N (8 * c + t) := by
  rw [← foldl_add_eq_sum]
  rfl

theorem reduce_lane0 (d : M256) :
    (_mm256_add_ps (_mm256_hadd_ps (_mm256_hadd_ps d d) (_mm256_hadd_ps d d))
      (_mm256_permute2f128_ps (_mm256_hadd_ps (_mm256_hadd_ps d d) (_mm256_hadd_ps d d))
        (_mm256_hadd_ps (_mm256_hadd_ps d d) (_mm256_hadd_ps d d)) 1)) 0
      = ((d 0 + d 1) + (d 2 + d 3)) + ((d 4 + d 5) + (d 6 + d 7)) := rfl

theorem sum_split8 (f : Nat → Flt) (N : Nat) :
    ∑ k ∈ Finset.range N, f k
      = ((((∑ k ∈ Finset.range (N / 8), f (8 * k + 0))
            + (∑ k ∈ Finset.range (N / 8), f (8 * k + 1)))
          + ((∑ k ∈ Finset.range (N / 8), f (8 * k + 2))
            + (∑ k ∈ Finset.range (N / 8), f (8 * k + 3))))
        + (((∑ k ∈ Finset.range (N / 8), f (8 * k + 4))
            + (∑ k ∈ Finset.range (N / 8), f (8 * k + 5)))
          + ((∑ k ∈ Finset.range (N / 8), f (8 * k + 6))
            + (∑ k ∈ Finset.range (N / 8), f (8 * k + 7)))))
        + ∑ t ∈ Finset.range (N % 8), f (8 * (N / 8) + t) := by
  have h := Finset.sum_range_add f (8 * (N / 8)) (N % 8)
  rw [Nat.div_add_mod, sum_range_mul8] at h
  exact h

theorem seq_to_seq_distance_sum (i j : Int) (M : List Flt) (N : Nat) :
    seq_to_seq_distance i j M ((N : Int).tdiv 8) (N : Int)
      = ∑ k ∈ Finset.range N, sqTerm i j M N k := by
  have hc : (N : Int).tdiv 8 = ((N / 8 : Nat) : Int) := (Int.ofNat_tdiv N 8).symm
  have hr : (N : Int).tmod 8 = ((N % 8 : Nat) : Int) := (Int.ofNat_tmod N 8).symm
  unfold seq_to_seq_distance
  simp only [hc, hr, Int.toNat_ofNat]
  rw [tail_fold, reduce_lane0, sum_split8 (fun k => sqTerm i j M N k) N]
  simp only [chunk_lane]
  rfl

theorem squaredEmbeddingDistance_sum (i j : Int) (M : List Flt) (N : Nat) :
    squaredEmbeddingDistance i j M (N : Int) = ∑ k ∈ Finset.range N, sqTerm i j M N k := by
  unfold squaredEmbeddingDistance
  simp only [Int.toNat_ofNat]
  have := foldl_add_eq_sum (fun k => sqTerm i j M (N : Int) k) N 0
  simp only [sqTerm, zero_add] at this
  rw [this]
  rfl

/-- C5: the eight-lane computation of `seq_to_seq_distance(i, j, matrix, N/8, N)` (chunks,
horizontal reduction, scalar tail) equals the plain scalar sum over the columns
`k = 0 .. N-1` of the squared differences, each column counted once. -/
theorem seq_to_seq_distance_eq_scalar (i j : Int) (M : List Flt) (N : Nat) :
    seq_to_seq_distance i j M ((N : Int).tdiv 8) (N : Int)
      = squaredEmbeddingDistance i j M (N : Int) := by
  have hvec := seq_to_seq_distance_sum i j M N
  have hscalar := squaredEmbeddingDistance_sum i j M N
  rw [hvec, hscalar]

/-! ### `mean_difference` -/

theorem foldl_add_eq_list_sum {α : Type} (h : α → Flt) (l : List α) (a : Flt) :
    l.foldl (fun acc x => acc + h x) a = a + (l.map h).sum := by
  induction l generalizing a with
  | nil => simp
  | cons x l ih =>
    simp only [List.foldl_cons, List.map_cons, List.sum_cons]
    rw [ih, add_assoc]

theorem mean_difference_eq (fsqrt : ℚ → ℚ) (A B : Cluster) (N : Int) (M : List Flt) :
    mean_difference fsqrt A B N M = linkageDistance fsqrt A B N M := by
  unfold mean_difference linkageDistance
  simp only
  congr 1
  have inner : ∀ (s1 : Sequence) (mean : Flt),
      B.foldl (fun mean seq2 => mean + Flt.sqrt fsqrt
        (seq_to_seq_distance s1.index seq2.index M (N.tdiv 8) N)) mean
      = mean + (B.map (fun b => Flt.sqrt fsqrt
        (seq_to_seq_distance s1.index b.index M (N.tdiv 8) N))).sum :=
    fun s1 mean => foldl_add_eq_list_sum _ B mean
  simp only [inner]
  rw [foldl_add_eq_list_sum (fun a => (B.map (fun b => Flt.sqrt fsqrt
        (seq_to_seq_distance a.index b.index M (N.tdiv 8) N))).sum) A 0, zero_add]

theorem Flt.div_one (x : Flt) : x / Flt.ofInt 1 = x := by
  show Flt.div x (Flt.ofInt 1) = x
  cases x <;> simp [Flt.div, Flt.ofInt]

theorem readF_fin (M : List Flt) (N : Nat) (hlen : M.length = N * N)
    (hfin : ∀ x ∈ M, x.isFinite = true) (i : Int) (hi0 : 0 ≤ i) (hi : i < (N : Int))
    (k : Nat) (hk : k < N) : ∃ q, readF M (i * (N : Int) + (k : Int)) = Flt.fin q := by
  obtain ⟨a, rfl⟩ := Int.eq_ofNat_of_zero_le hi0
  have ha : a < N := by exact_mod_cast hi
  have hpos : a * N + k < M.length := by
    rw [hlen]
    calc a * N + k < a * N + N := by omega
      _ = (a + 1) * N := by ring
      _ ≤ N * N := Nat.mul_le_mul_right N ha
  have hcast : ((a : Int) * (N : Int) + (k : Int)) = ((a * N + k : Nat) : Int) := by
    push_cast; ring
  unfold readF
  rw [hcast]
  have hr : (0 : Int) ≤ ((a * N + k : Nat) : Int) ∧
      ((a * N + k : Nat) : Int) < (M.length : Int) := by omega
  simp only [hr, and_self, if_true, Int.toNat_ofNat]
  rw [List.getD_eq_getElem?_getD, List.getElem?_eq_getElem hpos]
  have hx := hfin M[a * N + k] (List.getElem_mem _)
  cases hm : M[a * N + k] with
  | fin q => exact ⟨q, rfl⟩
  | pinf => rw [hm] at hx; simp [Flt.isFinite] at hx
  | ninf => rw [hm] at hx; simp [Flt.isFinite] at hx
  | nan => rw [hm] at hx; simp [Flt.isFinite] at hx

theorem sqTerm_fin (M : List Flt) (N : Nat) (hlen : M.length = N * N)
    (hfin : ∀ x ∈ M, x.isFinite = true) (i j : Int) (hi0 : 0 ≤ i) (hi : i < (N : Int))
    (hj0 : 0 ≤ j) (hj : j < (N : Int)) (k : Nat) (hk : k < N) :
    ∃ q, 0 ≤ q ∧ sqTerm i j M (N : Int) k = Flt.fin q := by
  obtain ⟨x, hx⟩ := readF_fin M N hlen hfin i hi0 hi k hk
  obtain ⟨y, hy⟩ := readF_fin M N hlen hfin j hj0 hj k hk
  refine ⟨(x - y) * (x - y), mul_self_nonneg _, ?_⟩
  unfold sqTerm
  rw [hx, hy]
  show Flt.mul (Flt.sub (Flt.fin x) (Flt.fin y)) (Flt.sub (Flt.fin x) (Flt.fin y)) = _
  simp [Flt.mul, Flt.sub, Flt.add, Flt.neg, sub_eq_add_neg]

theorem Flt.fin_add (a b : ℚ) : Flt.fin a + Flt.fin b = Flt.fin (a + b) := rfl

theorem sum_fin_nonneg (f : Nat → Flt) (n : Nat)
    (h : ∀ k, k < n → ∃ q, 0 ≤ q ∧ f k = Flt.fin q) :
    ∃ q, 0 ≤ q ∧ ∑ k ∈ Finset.range n, f k = Flt.fin q := by
  induction n with
  | zero => exact ⟨0, le_refl _, rfl⟩
  | succ n ih =>
    obtain ⟨q1, h1, e1⟩ := ih (fun k hk => h k (by omega))
    obtain ⟨q2, h2, e2⟩ := h n (by omega)
    refine ⟨q1 + q2, add_nonneg h1 h2, ?_⟩
    rw [Finset.sum_range_succ, e1, e2, Flt.fin_add]

theorem seq_to_seq_distance_fin (M : List Flt) (N : Nat) (hlen : M.length = N * N)
    (hfin : ∀ x ∈ M, x.isFinite = true) (i j : Int) (hi0 : 0 ≤ i) (hi : i < (N : Int))
    (hj0 : 0 ≤ j) (hj : j < (N : Int)) :
    ∃ q, 0 ≤ q ∧ seq_to_seq_distance i j M ((N : Int).tdiv 8) (N : Int) = Flt.fin q := by
  rw [seq_to_seq_distance_sum]
  exact sum_fin_nonneg _ N (fun k hk => sqTerm_fin M N hlen hfin i j hi0 hi hj0 hj k hk)

theorem list_sum_finite {α : Type} (h : α → Flt) (l : List α)
    (hf : ∀ x ∈ l, ∃ q, h x = Flt.fin q) : ∃ q, (l.map h).sum = Flt.fin q := by
  induction l with
  | nil => exact ⟨0, rfl⟩
  | cons x l ih =>
    obtain ⟨q1, e1⟩ := hf x (List.mem_cons_self _ _)
    obtain ⟨q2, e2⟩ := ih (fun y hy => hf y (List.mem_cons_of_mem _ hy))
    exact ⟨q1 + q2, by rw [List.map_cons, List.sum_cons, e1, e2, Flt.fin_add]⟩

/-- With a matrix of `N * N` finite entries and two non-empty clusters whose sequence indices
are in `0 .. N-1`, `mean_difference` is a finite number, whatever `sqrt` returns on the finite
non-negative values. -/
theorem mean_difference_finite (fsqrt : ℚ → ℚ) (M : List Flt) (N : Nat)
    (hlen : M.length = N * N) (hfin : ∀ x ∈ M, x.isFinite = true) (A B : Cluster)
    (hA : A ≠ []) (hB : B ≠ [])
    (hAi : ∀ s ∈ A, 0 ≤ s.index ∧ s.index < (N : Int))
    (hBi : ∀ s ∈ B, 0 ≤ s.index ∧ s.index < (N : Int)) :
    ∃ q, mean_difference fsqrt A B (N : Int) M = Flt.fin q := by
  rw [mean_difference_eq, linkageDistance]
  obtain ⟨S, hS⟩ := list_sum_finite (fun a => (B.map (fun b => Flt.sqrt fsqrt
      (seq_to_seq_distance a.index b.index M ((N : Int).tdiv 8) (N : Int)))).sum) A (by
    intro a ha
    apply list_sum_finite
    intro b hb
    obtain ⟨q, hq0, hq⟩ := seq_to_seq_distance_fin M N hlen hfin a.index b.index
      (hAi a ha).1 (hAi a ha).2 (hBi b hb).1 (hBi b hb).2
    refine ⟨fsqrt q, ?_⟩
    rw [hq]
    simp [Flt.sqrt, not_lt.2 hq0])
  rw [hS]
  have hApos : 0 < A.length := List.length_pos.2 hA
  have hBpos : 0 < B.length := List.length_pos.2 hB
  have hne : (((A.length : Int) * (B.length : Int) : Int) : ℚ) ≠ 0 := by
    have : 0 < A.length * B.length := Nat.mul_pos hApos hBpos
    have h2 : (0 : ℚ) < ((A.length * B.length : Nat) : ℚ) := by exact_mod_cast this
    push_cast at h2 ⊢
    exact ne_of_gt h2
  refine ⟨S / (((A.length : Int) * (B.length : Int) : Int) : ℚ), ?_⟩
  show Flt.div (Flt.fin S) (Flt.ofInt _) = _
  simp only [Flt.div, Flt.ofInt, hne, if_false]

/-! ### `find_closest_clusters` returns a closest pair -/

theorem Flt.add_def (a b : Flt) : a + b = Flt.add a b := rfl

theorem Flt.sub_def (a b : Flt) : a - b = Flt.sub a b := rfl

theorem Flt.mul_def (a b : Flt) : a * b = Flt.mul a b := rfl

theorem Flt.div_def (a b : Flt) : a / b = Flt.div a b := rfl

theorem Flt.zero_def : (0 : Flt) = Flt.fin 0 := rfl

theorem set1_lane (x : Flt) (l : Fin 8) : (_mm256_set1_ps x) l = x := rfl

theorem mean_difference_unit_matrix :
    Flt.lt (mean_difference sqrtFloor [sampleSeq 0] [sampleSeq 1] 2
      [Flt.fin 0, Flt.fin 1, Flt.fin 1, Flt.fin 0]) DBL_MAX = true := by
  simp [mean_difference, seq_to_seq_distance, sampleSeq, Int.tdiv, Int.tmod, List.range_succ,
    reduce_lane0, set1_lane, readF]
  norm_num [Flt.add_def, Flt.sub_def, Flt.mul_def, Flt.div_def, Flt.zero_def, Flt.add, Flt.sub,
    Flt.neg, Flt.mul, Flt.div, Flt.sqrt, Flt.ofInt, Flt.signedInf, Flt.lt, DBL_MAX]

theorem find_closest_unit_matrix :
    find_closest_clusters sqrtFloor ((2 : Nat) : Int) [[sampleSeq 0], [sampleSeq 1]] 2
        [Flt.fin 0, Flt.fin 1, Flt.fin 1, Flt.fin 0]
        { cToMerge1 := [], idxC1 := 0, cToMerge2 := [], idxC2 := 0 }
      = { cToMerge1 := [sampleSeq 0], idxC1 := 0, cToMerge2 := [sampleSeq 1], idxC2 := 1 } := by
  have hd := mean_difference_unit_matrix
  simp [find_closest_clusters, closest_scan, closest_visit, List.range_succ, clusterAt, hd]

/-- C1 (witness): three singleton clusters and a matrix of nine zeros. -/
theorem UPGMA_merge_count_witness :
    1 ≤ [[sampleSeq 0], [sampleSeq 1], [sampleSeq 2]].length ∧
    ((UPGMA_trace sqrtFloor [[sampleSeq 0], [sampleSeq 1], [sampleSeq 2]]
        (List.replicate 9 (Flt.fin 0)) []).length
        = [[sampleSeq 0], [sampleSeq 1], [sampleSeq 2]].length - 1 ∧
      (∀ (k : Nat) (s : UState),
        (UPGMA_trace sqrtFloor [[sampleSeq 0], [sampleSeq 1], [sampleSeq 2]]
          (List.replicate 9 (Flt.fin 0)) [])[k]? = some s →
        s.clusters.length + (k + 1) = [[sampleSeq 0], [sampleSeq 1], [sampleSeq 2]].length ∧
        s.numClusters = (s.clusters.length : Int)) ∧
      (UPGMA sqrtFloor [[sampleSeq 0], [sampleSeq 1], [sampleSeq 2]]
        (List.replicate 9 (Flt.fin 0)) []).length = 1) :=
  ⟨by decide, UPGMA_merge_count sqrtFloor [[sampleSeq 0], [sampleSeq 1], [sampleSeq 2]]
    (List.replicate 9 (Flt.fin 0)) [] (by decide)⟩

/-- C8 (witness): two singleton clusters at distance 1 of each other; the search selects the
positions 0 and 1. -/
theorem UPGMA_step_frame_witness :
    (find_closest_clusters sqrtFloor (([[sampleSeq 0], [sampleSeq 1]] : List Cluster).length : Int)
      [[sampleSeq 0], [sampleSeq 1]] 2 [Flt.fin 0, Flt.fin 1, Flt.fin 1, Flt.fin 0]
      { cToMerge1 := [], idxC1 := 0, cToMerge2 := [], idxC2 := 0 }).idxC1 = ((0 : Nat) : Int) ∧
    (find_closest_clusters sqrtFloor (([[sampleSeq 0], [sampleSeq 1]] : List Cluster).length : Int)
      [[sampleSeq 0], [sampleSeq 1]] 2 [Flt.fin 0, Flt.fin 1, Flt.fin 1, Flt.fin 0]
      { cToMerge1 := [], idxC1 := 0, cToMerge2 := [], idxC2 := 0 }).idxC2 = ((1 : Nat) : Int) ∧
    ∃ A B : Cluster, [[sampleSeq 0], [sampleSeq 1]][0]? = some A ∧
      [[sampleSeq 0], [sampleSeq 1]][1]? = some B ∧
      (UPGMA_step sqrtFloor 2 [Flt.fin 0, Flt.fin 1, Flt.fin 1, Flt.fin 0] []
        { numClusters := (([[sampleSeq 0], [sampleSeq 1]] : List Cluster).length : Int),
          clusters := [[sampleSeq 0], [sampleSeq 1]] }).clusters
        = ([[sampleSeq 0], [sampleSeq 1]] : List Cluster).take 0
          ++ (([[sampleSeq 0], [sampleSeq 1]] : List Cluster).take 1).drop (0 + 1)
          ++ ([[sampleSeq 0], [sampleSeq 1]] : List Cluster).drop (1 + 1) ++ [A ++ B] :=
  have h1 : (find_closest_clusters sqrtFloor
      (([[sampleSeq 0], [sampleSeq 1]] : List Cluster).length : Int)
      [[sampleSeq 0], [sampleSeq 1]] 2 [Flt.fin 0, Flt.fin 1, Flt.fin 1, Flt.fin 0]
      { cToMerge1 := [], idxC1 := 0, cToMerge2 := [], idxC2 := 0 }).idxC1 = ((0 : Nat) : Int) := by
    rw [show (([[sampleSeq 0], [sampleSeq 1]] : List Cluster).length : Int) = ((2 : Nat) : Int)
      from rfl, find_closest_unit_matrix]
    rfl
  have h2 : (find_closest_clusters sqrtFloor
      (([[sampleSeq 0], [sampleSeq 1]] : List Cluster).length : Int)
      [[sampleSeq 0], [sampleSeq 1]] 2 [Flt.fin 0, Flt.fin 1, Flt.fin 1, Flt.fin 0]
      { cToMerge1 := [], idxC1 := 0, cToMerge2 := [], idxC2 := 0 }).idxC2 = ((1 : Nat) : Int) := by
    rw [show (([[sampleSeq 0], [sampleSeq 1]] : List Cluster).length : Int) = ((2 : Nat) : Int)
      from rfl, find_closest_unit_matrix]
    rfl
  ⟨h1, h2, UPGMA_step_frame sqrtFloor 2 [Flt.fin 0, Flt.fin 1, Flt.fin 1, Flt.fin 0] []
    [[sampleSeq 0], [sampleSeq 1]] 0 1 (by decide) h1 h2⟩

theorem writeAt_length (v : List Int) (idx x : Int) : (writeAt v idx x).length = v.length := by
  unfold writeAt
  split <;> simp

theorem foldl_writeAt_length (L : List (Int × Int)) (v : List Int) :
    (L.foldl (fun v p => writeAt v p.1 p.2) v).length = v.length := by
  induction L generalizing v with
  | nil => rfl
  | cons p L ih => rw [List.foldl_cons, ih, writeAt_length]

theorem writeAt_get_same (v : List Int) (a x : Int) (h0 : 0 ≤ a) (h : a.toNat < v.length) :
    (writeAt v a x)[a.toNat]? = some x := by
  unfold writeAt
  simp [h0, h]

theorem writeAt_get_other (v : List Int) (a b x : Int) (h0a : 0 ≤ a) (hne : b ≠ a) :
    (writeAt v b x)[a.toNat]? = v[a.toNat]? := by
  unfold writeAt
  split
  · rename_i h0b
    have : b.toNat ≠ a.toNat := by omega
    simp [List.getElem?_set, this]
  · rfl

/-- After a sequence of stores, a position that was stored to, and only ever with the value
`x`, holds `x`. -/
theorem foldl_writeAt_lookup (L : List (Int × Int)) (v : List Int) (a x : Int) (h0 : 0 ≤ a)
    (h : a.toNat < v.length) (hmem : (a, x) ∈ L) (hcons : ∀ p ∈ L, p.1 = a → p.2 = x) :
    (L.foldl (fun v p => writeAt v p.1 p.2) v)[a.toNat]? = some x := by
  induction L using List.reverseRecOn with
  | nil => simp at hmem
  | append_singleton L p ih =>
    rw [List.foldl_append, List.foldl_cons, List.foldl_nil]
    by_cases hp : p.1 = a
    · have hx : p.2 = x := hcons p (by simp) hp
      rw [hp, hx]
      exact writeAt_get_same _ a x h0 (by rw [foldl_writeAt_length]; exact h)
    · rw [writeAt_get_other _ a p.1 p.2 h0 hp]
      apply ih
      · rcases List.mem_append.1 hmem with h1 | h1
        · exact h1
        · simp only [List.mem_singleton] at h1
          exact absurd (by rw [← h1]) hp
      · intro q hq
        exact hcons q (List.mem_append_left _ hq)

theorem wrap32_eq (x : Int) (h1 : -2147483648 ≤ x) (h2 : x < 2147483648) : wrap32 x = x := by
  unfold wrap32
  omega

theorem aOrder_bounds (i : Nat) (hi : i < 20) : 65 ≤ intAt aOrder i ∧ intAt aOrder i ≤ 89 := by
  interval_cases i <;> simp [intAt, aOrder]

theorem aOrder_mem (i : Nat) (hi : i < 20) : intAt aOrder i ∈ aOrder := by
  interval_cases i <;> simp [intAt, aOrder]

theorem aOrder_inj (i j : Nat) (hi : i < 20) (hj : j < 20)
    (h : intAt aOrder i = intAt aOrder j) : i = j := by
  have hnd : aOrder.Nodup := by decide
  have hli : i < aOrder.length := hi
  have hlj : j < aOrder.length := hj
  have e1 : intAt aOrder i = aOrder[i] := by
    simp [intAt, List.getD_eq_getElem?_getD, List.getElem?_eq_getElem hli]
  have e2 : intAt aOrder j = aOrder[j] := by
    simp [intAt, List.getD_eq_getElem?_getD, List.getElem?_eq_getElem hlj]
  rw [e1, e2] at h
  exact (List.Nodup.getElem_inj_iff hnd).1 h

theorem code_range (off R : Int) (hcode : ∀ c ∈ aOrder, 0 ≤ c + off ∧ c + off < R)
    (i : Nat) (hi : i < 20) : 0 ≤ intAt aOrder i + off ∧ intAt aOrder i + off < R :=
  hcode _ (aOrder_mem i hi)

theorem subPos_range (off R : Int) (hcode : ∀ c ∈ aOrder, 0 ≤ c + off ∧ c + off < R)
    (i j : Nat) (hi : i < 20) (hj : j < 20) :
    0 ≤ subPos off R i j ∧ subPos off R i j < R * R := by
  obtain ⟨a0, a1⟩ := code_range off R hcode i hi
  obtain ⟨b0, b1⟩ := code_range off R hcode j hj
  unfold subPos
  constructor
  · have : 0 ≤ (intAt aOrder i + off) * R := mul_nonneg a0 (by omega)
    omega
  · have : (intAt aOrder i + off) * R ≤ (R - 1) * R :=
      mul_le_mul_of_nonneg_right (by omega) (by omega)
    have e : (R - 1) * R = R * R - R := by ring
    omega

theorem subPos_inj (off R : Int) (hcode : ∀ c ∈ aOrder, 0 ≤ c + off ∧ c + off < R)
    (i j i' j' : Nat) (hi : i < 20) (hj : j < 20) (hi' : i' < 20) (hj' : j' < 20)
    (h : subPos off R i j = subPos off R i' j') : i = i' ∧ j = j' := by
  obtain ⟨a0, a1⟩ := code_range off R hcode i hi
  obtain ⟨b0, b1⟩ := code_range off R hcode j hj
  obtain ⟨c0, c1⟩ := code_range off R hcode i' hi'
  obtain ⟨d0, d1⟩ := code_range off R hcode j' hj'
  unfold subPos at h
  have hu : intAt aOrder i + off = intAt aOrder i' + off := by
    rcases lt_trichotomy (intAt aOrder i + off) (intAt aOrder i' + off) with hlt | heq | hgt
    · exfalso
      have : (intAt aOrder i + off + 1) * R ≤ (intAt aOrder i' + off) * R :=
        mul_le_mul_of_nonneg_right (by omega) (by omega)
      have e : (intAt aOrder i + off + 1) * R = (intAt aOrder i + off) * R + R := by ring
      omega
    · exact heq
    · exfalso
      have : (intAt aOrder i' + off + 1) * R ≤ (intAt aOrder i + off) * R :=
        mul_le_mul_of_nonneg_right (by omega) (by omega)
      have e : (intAt aOrder i' + off + 1) * R = (intAt aOrder i' + off) * R + R := by ring
      omega
  have hw : intAt aOrder j + off = intAt aOrder j' + off := by
    rw [hu] at h
    omega
  exact ⟨aOrder_inj i i' hi hi' (by omega), aOrder_inj j j' hj hj' (by omega)⟩

/-- Under the premises on the constants no 32-bit lane wraps: the position computed by the
vector instructions for the letters `i` and `j` is `subPos i j`. -/
theorem lane_index (off R : Int) (MS : Nat) (hcode : ∀ c ∈ aOrder, 0 ≤ c + off ∧ c + off < R)
    (hsize : R * R ≤ (MS : Int)) (hint : (MS : Int) < 2147483648)
    (i j : Nat) (hi : i < 20) (hj : j < 20) :
    wrap32 (wrap32 (wrap32 (wrap32 (intAt aOrder i) + wrap32 off) * wrap32 R)
      + wrap32 (intAt aOrder j + wrap32 off)) = subPos off R i j := by
  obtain ⟨a0, a1⟩ := code_range off R hcode i hi
  obtain ⟨b0, b1⟩ := code_range off R hcode j hj
  obtain ⟨ai0, ai1⟩ := aOrder_bounds i hi
  obtain ⟨bj0, bj1⟩ := aOrder_bounds j hj
  obtain ⟨p0, p1⟩ := subPos_range off R hcode i j hi hj
  have hR1 : 1 ≤ R := by omega
  have hRR : R ≤ R * R := by nlinarith
  have hm0 : 0 ≤ (intAt aOrder i + off) * R := mul_nonneg a0 (by omega)
  have hm1 : (intAt aOrder i + off) * R ≤ subPos off R i j := by unfold subPos; omega
  have e1 : wrap32 (intAt aOrder i) = intAt aOrder i := wrap32_eq _ (by omega) (by omega)
  have e2 : wrap32 off = off := wrap32_eq _ (by omega) (by omega)
  have e3 : wrap32 R = R := wrap32_eq _ (by omega) (by omega)
  have e4 : wrap32 (intAt aOrder i + off) = intAt aOrder i + off :=
    wrap32_eq _ (by omega) (by omega)
  have e5 : wrap32 (intAt aOrder j + off) = intAt aOrder j + off :=
    wrap32_eq _ (by omega) (by omega)
  have e6 : wrap32 ((intAt aOrder i + off) * R) = (intAt aOrder i + off) * R :=
    wrap32_eq _ (by omega) (by omega)
  rw [e1, e2, e3, e4, e5, e6]
  exact wrap32_eq _ (by unfold subPos at p0; omega) (by unfold subPos at p1; omega)

theorem make_sub_matrix_row (off R : Int) (MS : Nat) (blosum : Nat → Nat → Int)
    (hcode : ∀ c ∈ aOrder, 0 ≤ c + off ∧ c + off < R)
    (hsize : R * R ≤ (MS : Int)) (hint : (MS : Int) < 2147483648)
    (i : Nat) (hi : i < 20) (v : List Int) :
    (List.range' 16 (NUM_LETTERS - 16)).foldl (fun (subMatrix : List Int) (j : Nat) =>
      writeAt subMatrix
        ((intAt aOrder i + off) * R + (intAt aOrder j + off))
        (blosum i j))
      (vecStarts.foldl (fun (subMatrix : List Int) (j : Nat) =>
        writeAt (writeAt (writeAt (writeAt (writeAt (writeAt (writeAt (writeAt subMatrix
          (_mm256_add_epi32 (_mm256_mullo_epi32 (_mm256_add_epi32
              (_mm256_set1_epi32 (intAt aOrder i)) (_mm256_set1_epi32 off))
              (_mm256_set1_epi32 R))
            (_mm256_add_epi32 (_mm256_loadu_si256 (intAt aOrder) j) (_mm256_set1_epi32 off)) 0)
          (_mm256_loadu_si256 (blosum i) j 0))
          (_mm256_add_epi32 (_mm256_mullo_epi32 (_mm256_add_epi32
              (_mm256_set1_epi32 (intAt aOrder i)) (_mm256_set1_epi32 off))
              (_mm256_set1_epi32 R))
            (_mm256_add_epi32 (_mm256_loadu_si256 (intAt aOrder) j) (_mm256_set1_epi32 off)) 1)
          (_mm256_loadu_si256 (blosum i) j 1))
          (_mm256_add_epi32 (_mm256_mullo_epi32 (_mm256_add_epi32
              (_mm256_set1_epi32 (intAt aOrder i)) (_mm256_set1_epi32 off))
              (_mm256_set1_epi32 R))
            (_mm256_add_epi32 (_mm256_loadu_si256 (intAt aOrder) j) (_mm256_set1_epi32 off)) 2)
          (_mm256_loadu_si256 (blosum i) j 2))
          (_mm256_add_epi32 (_mm256_mullo_epi32 (_mm256_add_epi32
              (_mm256_set1_epi32 (intAt aOrder i)) (_mm256_set1_epi32 off))
              (_mm256_set1_epi32 R))
            (_mm256_add_epi32 (_mm256_loadu_si256 (intAt aOrder) j) (_mm256_set1_epi32 off)) 3)
          (_mm256_loadu_si256 (blosum i) j 3))
          (_mm256_add_epi32 (_mm256_mullo_epi32 (_mm256_add_epi32
              (_mm256_set1_epi32 (intAt aOrder i)) (_mm256_set1_epi32 off))
              (_mm256_set1_epi32 R))
            (_mm256_add_epi32 (_mm256_loadu_si256 (intAt aOrder) j) (_mm256_set1_epi32 off)) 4)
          (_mm256_loadu_si256 (blosum i) j 4))
          (_mm256_add_epi32 (_mm256_mullo_epi32 (_mm256_add_epi32
              (_mm256_set1_epi32 (intAt aOrder i)) (_mm256_set1_epi32 off))
              (_mm256_set1_epi32 R))
            (_mm256_add_epi32 (_mm256_loadu_si256 (intAt aOrder) j) (_mm256_set1_epi32 off)) 5)
          (_mm256_loadu_si256 (blosum i) j 5))
          (_mm256_add_epi32 (_mm256_mullo_epi32 (_mm256_add_epi32
              (_mm256_set1_epi32 (intAt aOrder i)) (_mm256_set1_epi32 off))
              (_mm256_set1_epi32 R))
            (_mm256_add_epi32 (_mm256_loadu_si256 (intAt aOrder) j) (_mm256_set1_epi32 off)) 6)
          (_mm256_loadu_si256 (blosum i) j 6))
          (_mm256_add_epi32 (_mm256_mullo_epi32 (_mm256_add_epi32
              (_mm256_set1_epi32 (intAt aOrder i)) (_mm256_set1_epi32 off))
              (_mm256_set1_epi32 R))
            (_mm256_add_epi32 (_mm256_loadu_si256 (intAt aOrder) j) (_mm256_set1_epi32 off)) 7)
          (_mm256_loadu_si256 (blosum i) j 7)) v)
      = (List.range 20).foldl (fun (s : List Int) (j : Nat) =>
          writeAt s (subPos off R i j) (blosum i j)) v := by
  have hL := fun j hj => lane_index off R MS hcode hsize hint i j hi hj
  have hv : vecStarts = [0, 8] := by decide
  have ht : List.range' 16 (NUM_LETTERS - 16) = [16, 17, 18, 19] := by decide
  have hr : List.range 20
      = [0, 1, 2, 3, 4, 5, 6, 7, 8, 9, 10, 11, 12, 13, 14, 15, 16, 17, 18, 19] := by decide
  rw [hv, ht, hr]
  simp only [List.foldl_cons, List.foldl_nil, _mm256_add_epi32, _mm256_mullo_epi32,
    _mm256_set1_epi32, _mm256_loadu_si256]
  simp only [show (0 : Nat) + ((0 : Fin 8) : Nat) = 0 from rfl,
    show (0 : Nat) + ((1 : Fin 8) : Nat) = 1 from rfl,
    show (0 : Nat) + ((2 : Fin 8) : Nat) = 2 from rfl,
    show (0 : Nat) + ((3 : Fin 8) : Nat) = 3 from rfl,
    show (0 : Nat) + ((4 : Fin 8) : Nat) = 4 from rfl,
    show (0 : Nat) + ((5 : Fin 8) : Nat) = 5 from rfl,
    show (0 : Nat) + ((6 : Fin 8) : Nat) = 6 from rfl,
    show (0 : Nat) + ((7 : Fin 8) : Nat) = 7 from rfl,
    show (8 : Nat) + ((0 : Fin 8) : Nat) = 8 from rfl,
    show (8 : Nat) + ((1 : Fin 8) : Nat) = 9 from rfl,
    show (8 : Nat) + ((2 : Fin 8) : Nat) = 10 from rfl,
    show (8 : Nat) + ((3 : Fin 8) : Nat) = 11 from rfl,
    show (8 : Nat) + ((4 : Fin 8) : Nat) = 12 from rfl,
    show (8 : Nat) + ((5 : Fin 8) : Nat) = 13 from rfl,
    show (8 : Nat) + ((6 : Fin 8) : Nat) = 14 from rfl,
    show (8 : Nat) + ((7 : Fin 8) : Nat) = 15 from rfl]
  simp only [hL 0 (by decide), hL 1 (by decide), hL 2 (by decide), hL 3 (by decide),
    hL 4 (by decide), hL 5 (by decide), hL 6 (by decide), hL 7 (by decide), hL 8 (by decide),
    hL 9 (by decide), hL 10 (by decide), hL 11 (by decide), hL 12 (by decide), hL 13 (by decide),
    hL 14 (by decide), hL 15 (by decide)]
  rfl

theorem foldl_congr_mem {α β : Type} (f g : β → α → β) (l : List α)
    (h : ∀ a ∈ l, ∀ b, f b a = g b a) (b : β) : l.foldl f b = l.foldl g b := by
  induction l generalizing b with
  | nil => rfl
  | cons a l ih =>
    simp only [List.foldl_cons]
    rw [h a (List.mem_cons_self _ _) b]
    exact ih (fun x hx => h x (List.mem_cons_of_mem _ hx)) _

/-- Under the premises on the constants, `make_sub_matrix` performs the 400 stores
`subMatrix[subPos i j] = blosum[i][j]`, for `i = 0 .. 19` and, within each `i`,
`j = 0 .. 19`. -/
theorem make_sub_matrix_stores (off R : Int) (MS : Nat) (blosum : Nat → Nat → Int)
    (hcode : ∀ c ∈ aOrder, 0 ≤ c + off ∧ c + off < R)
    (hsize : R * R ≤ (MS : Int)) (hint : (MS : Int) < 2147483648) :
    make_sub_matrix off R MS blosum
      = (((List.range 20).flatMap (fun i => (List.range 20).map (fun j => (i, j)))).map
          (fun p => (subPos off R p.1 p.2, blosum p.1 p.2))).foldl
          (fun v p => writeAt v p.1 p.2) (List.replicate MS 0) := by
  rw [List.foldl_map]
  rw [← foldl_nested (fun v i j => writeAt v (subPos off R i j) (blosum i j))
    (fun _ => List.range 20) (List.range 20) (List.replicate MS 0)]
  unfold make_sub_matrix
  apply foldl_congr_mem
  intro i hi v
  exact make_sub_matrix_row off R MS blosum hcode hsize hint i
    (by simpa [NUM_LETTERS] using hi) v

/-- C7: for all `i, j < 20` the array returned by `make_sub_matrix` holds `blosum[i][j]` at
position `(aOrder[i] + ASCII_OFFSET) * ROW_LEN + (aOrder[j] + ASCII_OFFSET)`, and two
different pairs have different positions, so that the vector passes and the scalar tail cover
all 400 entries and none is overwritten by another pair; the constants are parameters with
`0 ≤ code + ASCII_OFFSET < ROW_LEN` for the 20 codes and `MATRIX_SIZE ≥ ROW_LEN * ROW_LEN`,
`MATRIX_SIZE` in the range of an `int`. -/
theorem make_sub_matrix_lookup (ASCII_OFFSET ROW_LEN : Int) (MATRIX_SIZE : Nat)
    (blosum : Nat → Nat → Int)
    (hcode : ∀ c ∈ aOrder, 0 ≤ c + ASCII_OFFSET ∧ c + ASCII_OFFSET < ROW_LEN)
    (hsize : ROW_LEN * ROW_LEN ≤ (MATRIX_SIZE : Int))
    (hint : (MATRIX_SIZE : Int) < 2147483648) :
    (∀ i j : Nat, i < 20 → j < 20 →
      (make_sub_matrix ASCII_OFFSET ROW_LEN MATRIX_SIZE blosum)[
        ((intAt aOrder i + ASCII_OFFSET) * ROW_LEN + (intAt aOrder j + ASCII_OFFSET)).toNat]?
        = some (blosum i j)) ∧
    (∀ i j i' j' : Nat, i < 20 → j < 20 → i' < 20 → j' < 20 →
      (intAt aOrder i + ASCII_OFFSET) * ROW_LEN + (intAt aOrder j + ASCII_OFFSET)
        = (intAt aOrder i' + ASCII_OFFSET) * ROW_LEN + (intAt aOrder j' + ASCII_OFFSET) →
      i = i' ∧ j = j') := by
  constructor
  · intro i j hi hj
    rw [make_sub_matrix_stores ASCII_OFFSET ROW_LEN MATRIX_SIZE blosum hcode hsize hint]
    obtain ⟨p0, p1⟩ := subPos_range ASCII_OFFSET ROW_LEN hcode i j hi hj
    apply foldl_writeAt_lookup _ _ (subPos ASCII_OFFSET ROW_LEN i j) (blosum i j) p0
    · rw [List.length_replicate]
      omega
    · simp only [List.mem_map, List.mem_flatMap, List.mem_range]
      exact ⟨(i, j), ⟨i, hi, j, hj, rfl⟩, rfl⟩
    · intro p hp hpa
      simp only [List.mem_map, List.mem_flatMap, List.mem_range] at hp
      obtain ⟨q, ⟨i', hi', j', hj', rfl⟩, rfl⟩ := hp
      simp only at hpa ⊢
      obtain ⟨rfl, rfl⟩ := subPos_inj ASCII_OFFSET ROW_LEN hcode i' j' i j hi' hj' hi hj hpa
      rfl
  · intro i j i' j' hi hj hi' hj' h
    exact subPos_inj ASCII_OFFSET ROW_LEN hcode i j i' j' hi hj hi' hj' h

/-- C7 (witness): `ASCII_OFFSET = -65`, `ROW_LEN = 25`, `MATRIX_SIZE = 625` and the table with
`blosum[i][j] = 20 * i + j`. -/
theorem make_sub_matrix_lookup_witness :
    (∀ c ∈ aOrder, 0 ≤ c + (-65 : Int) ∧ c + (-65 : Int) < 25) ∧
    ((25 : Int) * 25 ≤ ((625 : Nat) : Int)) ∧ (((625 : Nat) : Int) < 2147483648) ∧
    (∀ i j : Nat, i < 20 → j < 20 →
      (make_sub_matrix (-65) 25 625 (fun i j => ((20 * i + j : Nat) : Int)))[
        ((intAt aOrder i + (-65 : Int)) * 25 + (intAt aOrder j + (-65 : Int))).toNat]?
        = some ((fun i j => ((20 * i + j : Nat) : Int)) i j)) ∧
    (∀ i j i' j' : Nat, i < 20 → j < 20 → i' < 20 → j' < 20 →
      (intAt aOrder i + (-65 : Int)) * 25 + (intAt aOrder j + (-65 : Int))
        = (intAt aOrder i' + (-65 : Int)) * 25 + (intAt aOrder j' + (-65 : Int)) →
      i = i' ∧ j = j') :=
  ⟨by decide, by decide, by decide,
    make_sub_matrix_lookup (-65) 25 625 (fun i j => ((20 * i + j : Nat) : Int))
      (by decide) (by decide) (by decide)⟩

/-! ### Symmetry and the diagonal of `seq_to_seq_distance` -/

theorem Flt.sq_sub_comm (a b : Flt) : (a - b) * (a - b) = (b - a) * (b - a) := by
  show Flt.mul (Flt.sub a b) (Flt.sub a b) = Flt.mul (Flt.sub b a) (Flt.sub b a)
  cases a <;> cases b <;> simp [Flt.mul, Flt.sub, Flt.add, Flt.neg]
  ring

theorem sqTerm_comm (i j : Int) (M : List Flt) (N : Int) (k : Nat) :
    sqTerm i j M N k = sqTerm j i M N k := by
  unfold sqTerm
  exact Flt.sq_sub_comm _ _

/-- C14: `seq_to_seq_distance(i, j, matrix, N/8, N) = seq_to_seq_distance(j, i, matrix, N/8, N)`
for every `N`, every matrix and all indices. -/
theorem seq_to_seq_distance_symm (i j : Int) (M : List Flt) (N : Nat) :
    seq_to_seq_distance i j M ((N : Int).tdiv 8) (N : Int)
      = seq_to_seq_distance j i M ((N : Int).tdiv 8) (N : Int) := by
  rw [seq_to_seq_distance_sum, seq_to_seq_distance_sum]
  exact Finset.sum_congr rfl (fun k _ => sqTerm_comm i j M N k)

theorem sqTerm_self (i : Int) (M : List Flt) (N : Int) (k : Nat) (q : ℚ)
    (h : readF M (i * N + (k : Int)) = Flt.fin q) : sqTerm i i M N k = 0 := by
  unfold sqTerm
  rw [h]
  show Flt.mul (Flt.sub (Flt.fin q) (Flt.fin q)) (Flt.sub (Flt.fin q) (Flt.fin q)) = Flt.fin 0
  simp [Flt.mul, Flt.sub, Flt.add, Flt.neg]

/-- C15 (amended): for every `N`, every matrix of `N * N` finite entries and every index
`i < N`, `seq_to_seq_distance(i, i, matrix, N/8, N) = 0`. -/
theorem seq_to_seq_distance_self (M : List Flt) (N : Nat) (hlen : M.length = N * N)
    (hfin : ∀ x ∈ M, x.isFinite = true) (i : Nat) (hi : i < N) :
    seq_to_seq_distance (i : Int) (i : Int) M ((N : Int).tdiv 8) (N : Int) = 0 := by
  rw [seq_to_seq_distance_sum]
  apply Finset.sum_eq_zero
  intro k hk
  obtain ⟨q, hq⟩ := readF_fin M N hlen hfin (i : Int) (by omega) (by exact_mod_cast hi) k
    (Finset.mem_range.1 hk)
  exact sqTerm_self (i : Int) M (N : Int) k q hq

/-- C15 (counterexample): for `N = 1` and the matrix `[inf]`, the difference `inf - inf` is
`NaN`, and `seq_to_seq_distance(0, 0, matrix, 0, 1)` is `NaN`, not 0. -/
theorem seq_to_seq_distance_self_inf :
    ([Flt.pinf] : List Flt).length = 1 * 1 ∧
    seq_to_seq_distance 0 0 [Flt.pinf] ((1 : Int).tdiv 8) 1 = Flt.nan ∧
    seq_to_seq_distance 0 0 [Flt.pinf] ((1 : Int).tdiv 8) 1 ≠ 0 := by
  have h : seq_to_seq_distance 0 0 [Flt.pinf] ((1 : Int).tdiv 8) 1 = Flt.nan := by
    simp [seq_to_seq_distance, Int.tdiv, Int.tmod, List.range_succ, reduce_lane0, set1_lane,
      readF]
    simp [Flt.add_def, Flt.sub_def, Flt.mul_def, Flt.zero_def, Flt.add, Flt.sub, Flt.neg,
      Flt.mul]
  refine ⟨rfl, h, ?_⟩
  rw [h]
  exact fun hc => Flt.noConfusion hc

/-- C15 (witness): the matrix `[0, 1, 1, 0]` and the index 1. -/
theorem seq_to_seq_distance_self_witness :
    [Flt.fin 0, Flt.fin 1, Flt.fin 1, Flt.fin 0].length = 2 * 2 ∧
    (∀ x ∈ [Flt.fin 0, Flt.fin 1, Flt.fin 1, Flt.fin 0], x.isFinite = true) ∧ 1 < 2 ∧
    seq_to_seq_distance ((1 : Nat) : Int) ((1 : Nat) : Int)
      [Flt.fin 0, Flt.fin 1, Flt.fin 1, Flt.fin 0] (((2 : Nat) : Int).tdiv 8) ((2 : Nat) : Int)
      = 0 :=
  have hfin : ∀ x ∈ [Flt.fin 0, Flt.fin 1, Flt.fin 1, Flt.fin 0], x.isFinite = true := by
    intro x hx
    simp at hx
    rcases hx with rfl | rfl | rfl <;> rfl
  ⟨rfl, hfin, by decide,
    seq_to_seq_distance_self [Flt.fin 0, Flt.fin 1, Flt.fin 1, Flt.fin 0] 2 rfl hfin 1
      (by decide)⟩

/-! ### Symmetry and sign of `mean_difference` -/

/-- The nested loops visit the pairs in strictly increasing lexicographic order. -/
theorem pairsOf_pairwise (n : Nat) :
    (pairsOf n).Pairwise (fun p q => p.1 < q.1 ∨ (p.1 = q.1 ∧ p.2 < q.2)) := by
  unfold pairsOf
  rw [List.pairwise_flatMap]
  constructor
  · intro i _
    rw [List.pairwise_map]
    exact (List.pairwise_lt_range' (i + 1) (n - (i + 1))).imp (fun h => Or.inr ⟨rfl, h⟩)
  · refine (List.pairwise_lt_range n).imp ?_
    intro i i' hlt x hx y hy
    simp only [List.mem_map] at hx hy
    obtain ⟨_, _, rfl⟩ := hx
    obtain ⟨_, _, rfl⟩ := hy
    exact Or.inl hlt

/-- C19 (amended): when at least one pair of clusters has a `mean_difference` below the initial
`DBL_MAX`, `find_closest_clusters` run by a single worker returns a pair `(i, j)`, `i < j`,
that no pair is below, and every pair `(a, b)` with the same `mean_difference` comes at or
after `(i, j)` in traversal order (`i < a`, or `i = a` and `j ≤ b`): a later pair with an
equal distance never replaces an earlier one. -/
theorem find_closest_clusters_first (fsqrt : ℚ → ℚ) (numSeqs : Int) (M : List Flt)
    (W : List Cluster) (out0 : Closest)
    (hsel : ∃ a b : Nat, a < b ∧ b < W.length ∧
      Flt.lt (mean_difference fsqrt (clusterAt W (a : Int)) (clusterAt W (b : Int)) numSeqs M)
        DBL_MAX = true) :
    ∃ i j : Nat, i < j ∧ j < W.length ∧
      (find_closest_clusters fsqrt (W.length : Int) W numSeqs M out0).idxC1 = (i : Int) ∧
      (find_closest_clusters fsqrt (W.length : Int) W numSeqs M out0).idxC2 = (j : Int) ∧
      (∀ a b : Nat, a < b → b < W.length →
        Flt.lt (mean_difference fsqrt (clusterAt W (a : Int)) (clusterAt W (b : Int)) numSeqs M)
          (mean_difference fsqrt (clusterAt W (i : Int)) (clusterAt W (j : Int)) numSeqs M)
          = false) ∧
      (∀ a b : Nat, a < b → b < W.length →
        mean_difference fsqrt (clusterAt W (a : Int)) (clusterAt W (b : Int)) numSeqs M
          = mean_difference fsqrt (clusterAt W (i : Int)) (clusterAt W (j : Int)) numSeqs M →
        i < a ∨ (i = a ∧ j ≤ b)) := by
  rcases find_closest_cases fsqrt (W.length : Int) W numSeqs M out0 with
    ⟨-, hall⟩ | ⟨L1, p, L2, hL, hr, -, h1, h2⟩
  · exfalso
    obtain ⟨a, b, hab, hb, hd⟩ := hsel
    have h01 := hall (a, b) (by simp only [Int.toNat_ofNat]; exact mem_pairsOf.2 ⟨hab, hb⟩)
    simp only [pairDist] at h01
    rw [h01] at hd
    exact absurd hd (by simp)
  · simp only [Int.toNat_ofNat] at hL
    have hmem : p ∈ pairsOf W.length := by rw [hL]; simp
    obtain ⟨hlt, hp2⟩ := mem_pairsOf.1 hmem
    have hpw := pairsOf_pairwise W.length
    rw [hL, List.pairwise_append, List.pairwise_cons] at hpw
    refine ⟨p.1, p.2, hlt, hp2, by rw [hr], by rw [hr], ?_, ?_⟩
    · intro a b hab hb
      have hq : (a, b) ∈ pairsOf W.length := mem_pairsOf.2 ⟨hab, hb⟩
      rw [hL] at hq
      rcases List.mem_append.1 hq with h | h
      · exact (h1 _ h).1
      · rcases List.mem_cons.1 h with h | h
        · rw [← h]
          exact Flt.lt_irrefl _
        · exact h2 _ h
    · intro a b hab hb heq
      have hq : (a, b) ∈ pairsOf W.length := mem_pairsOf.2 ⟨hab, hb⟩
      rw [hL] at hq
      rcases List.mem_append.1 hq with h | h
      · exact absurd heq (h1 _ h).2
      · rcases List.mem_cons.1 h with h | h
        · right
          rw [← h]
          exact ⟨rfl, le_refl _⟩
        · rcases hpw.2.1.1 _ h with h' | h'
          · exact Or.inl h'
          · exact Or.inr ⟨h'.1, le_of_lt h'.2⟩

theorem find_closest_none (fsqrt : ℚ → ℚ) (numSeqs : Int) (M : List Flt) (W : List Cluster)
    (out0 : Closest)
    (hall : ∀ a b : Nat, a < b → b < W.length →
      Flt.lt (mean_difference fsqrt (clusterAt W (a : Int)) (clusterAt W (b : Int)) numSeqs M)
        DBL_MAX = false) :
    find_closest_clusters fsqrt (W.length : Int) W numSeqs M out0 = out0 := by
  rcases find_closest_cases fsqrt (W.length : Int) W numSeqs M out0 with
    ⟨hr, -⟩ | ⟨L1, p, L2, hL, -, hp, -, -⟩
  · exact hr
  · simp only [Int.toNat_ofNat] at hL
    have hmem : p ∈ pairsOf W.length := by rw [hL]; simp
    obtain ⟨hlt, hp2⟩ := mem_pairsOf.1 hmem
    have := hall p.1 p.2 hlt hp2
    simp only [pairDist] at hp
    rw [this] at hp
    exact absurd hp (by simp)

theorem dist_tie_inf (a b : Int) (h : (a = 0 ∧ b = 1) ∨ (a = 0 ∧ b = 2) ∨ (a = 1 ∧ b = 2)) :
    mean_difference sqrtFloor [sampleSeq a] [sampleSeq b] 3
        [Flt.fin 0, Flt.fin 0, Flt.fin 0, Flt.pinf, Flt.fin 0, Flt.fin 0,
          Flt.fin 0, Flt.pinf, Flt.fin 0] = Flt.pinf := by
  rcases h with ⟨rfl, rfl⟩ | ⟨rfl, rfl⟩ | ⟨rfl, rfl⟩
  · simp [mean_difference, seq_to_seq_distance, sampleSeq, Int.tdiv, Int.tmod,
      List.range_succ, reduce_lane0, set1_lane, readF]
    simp [Flt.add_def, Flt.sub_def, Flt.mul_def, Flt.div_def, Flt.zero_def, Flt.add,
      Flt.sub, Flt.neg, Flt.mul, Flt.div, Flt.sqrt, Flt.ofInt, Flt.signedInf]
  · simp [mean_difference, seq_to_seq_distance, sampleSeq, Int.tdiv, Int.tmod,
      List.range_succ, reduce_lane0, set1_lane, readF]
    simp [Flt.add_def, Flt.sub_def, Flt.mul_def, Flt.div_def, Flt.zero_def, Flt.add,
      Flt.sub, Flt.neg, Flt.mul, Flt.div, Flt.sqrt, Flt.ofInt, Flt.signedInf]
  · simp [mean_difference, seq_to_seq_distance, sampleSeq, Int.tdiv, Int.tmod,
      List.range_succ, reduce_lane0, set1_lane, readF]
    simp [Flt.add_def, Flt.sub_def, Flt.mul_def, Flt.div_def, Flt.zero_def, Flt.add,
      Flt.sub, Flt.neg, Flt.mul, Flt.div, Flt.sqrt, Flt.ofInt, Flt.signedInf]

/-- C19 (counterexample): for three singleton clusters and the matrix
`[0,0,0; inf,0,0; 0,inf,0]` the three pairs share the distance `+inf`, the minimum; the
first of them in traversal order is `(0, 1)`, but no distance is below the initial `DBL_MAX`
and `find_closest_clusters` returns the result parameters as `UPGMA` passed them:
`idxC1 = idxC2 = 0` and two empty clusters. -/
theorem find_closest_clusters_tie_inf :
    mean_difference sqrtFloor [sampleSeq 0] [sampleSeq 1] 3
      [Flt.fin 0, Flt.fin 0, Flt.fin 0, Flt.pinf, Flt.fin 0, Flt.fin 0,
        Flt.fin 0, Flt.pinf, Flt.fin 0] = Flt.pinf ∧
    mean_difference sqrtFloor [sampleSeq 0] [sampleSeq 2] 3
      [Flt.fin 0, Flt.fin 0, Flt.fin 0, Flt.pinf, Flt.fin 0, Flt.fin 0,
        Flt.fin 0, Flt.pinf, Flt.fin 0] = Flt.pinf ∧
    mean_difference sqrtFloor [sampleSeq 1] [sampleSeq 2] 3
      [Flt.fin 0, Flt.fin 0, Flt.fin 0, Flt.pinf, Flt.fin 0, Flt.fin 0,
        Flt.fin 0, Flt.pinf, Flt.fin 0] = Flt.pinf ∧
    find_closest_clusters sqrtFloor 3 [[sampleSeq 0], [sampleSeq 1], [sampleSeq 2]] 3
        [Flt.fin 0, Flt.fin 0, Flt.fin 0, Flt.pinf, Flt.fin 0, Flt.fin 0,
          Flt.fin 0, Flt.pinf, Flt.fin 0]
        { cToMerge1 := [], idxC1 := 0, cToMerge2 := [], idxC2 := 0 }
      = { cToMerge1 := [], idxC1 := 0, cToMerge2 := [], idxC2 := 0 } := by
  refine ⟨dist_tie_inf 0 1 (by simp), dist_tie_inf 0 2 (by simp), dist_tie_inf 1 2 (by simp), ?_⟩
  have h := find_closest_none sqrtFloor 3
    [Flt.fin 0, Flt.fin 0, Flt.fin 0, Flt.pinf, Flt.fin 0, Flt.fin 0,
      Flt.fin 0, Flt.pinf, Flt.fin 0] [[sampleSeq 0], [sampleSeq 1], [sampleSeq 2]]
    { cToMerge1 := [], idxC1 := 0, cToMerge2 := [], idxC2 := 0 } (by
      intro a b hab hb
      simp only [List.length_cons, List.length_nil] at hb
      have hcases : (a = 0 ∧ b = 1) ∨ (a = 0 ∧ b = 2) ∨ (a = 1 ∧ b = 2) := by omega
      rcases hcases with ⟨rfl, rfl⟩ | ⟨rfl, rfl⟩ | ⟨rfl, rfl⟩
      · have e := dist_tie_inf 0 1 (by simp)
        have c0 : clusterAt [[sampleSeq 0], [sampleSeq 1], [sampleSeq 2]] ((0 : Nat) : Int)
          = [sampleSeq 0] := rfl
        have c1 : clusterAt [[sampleSeq 0], [sampleSeq 1], [sampleSeq 2]] ((1 : Nat) : Int)
          = [sampleSeq 1] := rfl
        rw [c0, c1, e]
        rfl
      · have e := dist_tie_inf 0 2 (by simp)
        have c0 : clusterAt [[sampleSeq 0], [sampleSeq 1], [sampleSeq 2]] ((0 : Nat) : Int)
          = [sampleSeq 0] := rfl
        have c2 : clusterAt [[sampleSeq 0], [sampleSeq 1], [sampleSeq 2]] ((2 : Nat) : Int)
          = [sampleSeq 2] := rfl
        rw [c0, c2, e]
        rfl
      · have e := dist_tie_inf 1 2 (by simp)
        have c1 : clusterAt [[sampleSeq 0], [sampleSeq 1], [sampleSeq 2]] ((1 : Nat) : Int)
          = [sampleSeq 1] := rfl
        have c2 : clusterAt [[sampleSeq 0], [sampleSeq 1], [sampleSeq 2]] ((2 : Nat) : Int)
          = [sampleSeq 2] := rfl
        rw [c1, c2, e]
        rfl)
  exact h

theorem zero_matrix_selectable :
    ∃ a b : Nat, a < b ∧ b < ([[sampleSeq 0], [sampleSeq 1], [sampleSeq 2]] : List Cluster).length ∧
      Flt.lt (mean_difference sqrtFloor
        (clusterAt [[sampleSeq 0], [sampleSeq 1], [sampleSeq 2]] (a : Int))
        (clusterAt [[sampleSeq 0], [sampleSeq 1], [sampleSeq 2]] (b : Int)) 3
        (List.replicate 9 (Flt.fin 0))) DBL_MAX = true := by
  refine ⟨0, 1, by decide, by decide, ?_⟩
  have c0 : clusterAt [[sampleSeq 0], [sampleSeq 1], [sampleSeq 2]] ((0 : Nat) : Int)
    = [sampleSeq 0] := rfl
  have c1 : clusterAt [[sampleSeq 0], [sampleSeq 1], [sampleSeq 2]] ((1 : Nat) : Int)
    = [sampleSeq 1] := rfl
  obtain ⟨q, hq⟩ := mean_difference_finite sqrtFloor (List.replicate 9 (Flt.fin 0)) 3
    (by decide) (by intro x hx; rw [List.eq_of_mem_replicate hx]; rfl)
    [sampleSeq 0] [sampleSeq 1] (by simp) (by simp)
    (by intro s hs; simp only [List.mem_singleton] at hs; subst hs; exact ⟨by decide, by decide⟩)
    (by intro s hs; simp only [List.mem_singleton] at hs; subst hs; exact ⟨by decide, by decide⟩)
  rw [c0, c1]
  have h3 : ((3 : Nat) : Int) = 3 := rfl
  rw [h3] at hq
  rw [hq]
  rfl

/-- C19 (witness): three singleton clusters and a matrix of nine zeros, where all pairs are at
the same distance. -/
theorem find_closest_clusters_first_witness :
    (∃ a b : Nat, a < b ∧
      b < ([[sampleSeq 0], [sampleSeq 1], [sampleSeq 2]] : List Cluster).length ∧
      Flt.lt (mean_difference sqrtFloor
        (clusterAt [[sampleSeq 0], [sampleSeq 1], [sampleSeq 2]] (a : Int))
        (clusterAt [[sampleSeq 0], [sampleSeq 1], [sampleSeq 2]] (b : Int)) 3
        (List.replicate 9 (Flt.fin 0))) DBL_MAX = true) ∧
    ∃ i j : Nat, i < j ∧ j < ([[sampleSeq 0], [sampleSeq 1], [sampleSeq 2]] : List Cluster).length ∧
      (find_closest_clusters sqrtFloor
        (([[sampleSeq 0], [sampleSeq 1], [sampleSeq 2]] : List Cluster).length : Int)
        [[sampleSeq 0], [sampleSeq 1], [sampleSeq 2]] 3 (List.replicate 9 (Flt.fin 0))
        { cToMerge1 := [], idxC1 := 0, cToMerge2 := [], idxC2 := 0 }).idxC1 = (i : Int) ∧
      (find_closest_clusters sqrtFloor
        (([[sampleSeq 0], [sampleSeq 1], [sampleSeq 2]] : List Cluster).length : Int)
        [[sampleSeq 0], [sampleSeq 1], [sampleSeq 2]] 3 (List.replicate 9 (Flt.fin 0))
        { cToMerge1 := [], idxC1 := 0, cToMerge2 := [], idxC2 := 0 }).idxC2 = (j : Int) ∧
      (∀ a b : Nat, a < b →
        b < ([[sampleSeq 0], [sampleSeq 1], [sampleSeq 2]] : List Cluster).length →
        Flt.lt (mean_difference sqrtFloor
            (clusterAt [[sampleSeq 0], [sampleSeq 1], [sampleSeq 2]] (a : Int))
            (clusterAt [[sampleSeq 0], [sampleSeq 1], [sampleSeq 2]] (b : Int)) 3
            (List.replicate 9 (Flt.fin 0)))
          (mean_difference sqrtFloor
            (clusterAt [[sampleSeq 0], [sampleSeq 1], [sampleSeq 2]] (i : Int))
            (clusterAt [[sampleSeq 0], [sampleSeq 1], [sampleSeq 2]] (j : Int)) 3
            (List.replicate 9 (Flt.fin 0))) = false) ∧
      (∀ a b : Nat, a < b →
        b < ([[sampleSeq 0], [sampleSeq 1], [sampleSeq 2]] : List Cluster).length →
        mean_difference sqrtFloor
            (clusterAt [[sampleSeq 0], [sampleSeq 1], [sampleSeq 2]] (a : Int))
            (clusterAt [[sampleSeq 0], [sampleSeq 1], [sampleSeq 2]] (b : Int)) 3
            (List.replicate 9 (Flt.fin 0))
          = mean_difference sqrtFloor
            (clusterAt [[sampleSeq 0], [sampleSeq 1], [sampleSeq 2]] (i : Int))
            (clusterAt [[sampleSeq 0], [sampleSeq 1], [sampleSeq 2]] (j : Int)) 3
            (List.replicate 9 (Flt.fin 0)) →
        i < a ∨ (i = a ∧ j ≤ b)) :=
  ⟨zero_matrix_selectable,
    find_closest_clusters_first sqrtFloor 3 (List.replicate 9 (Flt.fin 0))
      [[sampleSeq 0], [sampleSeq 1], [sampleSeq 2]]
      { cToMerge1 := [], idxC1 := 0, cToMerge2 := [], idxC2 := 0 } zero_matrix_selectable⟩

/-! ### The first merge when two rows are identical -/

theorem mean_difference_singleton (fsqrt : ℚ → ℚ) (a b : Sequence) (N : Int) (M : List Flt) :
    mean_difference fsqrt [a] [b] N M
      = Flt.sqrt fsqrt (seq_to_seq_distance a.index b.index M (N.tdiv 8) N) := by
  rw [mean_difference_eq, linkageDistance]
  simp only [List.map_cons, List.map_nil, List.sum_cons, List.sum_nil, add_zero,
    List.length_singleton, Nat.cast_one, mul_one]
  exact Flt.div_one _

theorem sqTerm_identical (i j : Int) (M : List Flt) (N : Int) (k : Nat)
    (h : readF M (i * N + (k : Int)) = readF M (j * N + (k : Int))) :
    sqTerm i j M N k = 0 ∨ sqTerm i j M N k = Flt.nan := by
  unfold sqTerm
  rw [h]
  show Flt.mul (Flt.sub _ _) (Flt.sub _ _) = Flt.fin 0 ∨ Flt.mul (Flt.sub _ _) (Flt.sub _ _) = _
  cases readF M (j * N + (k : Int)) <;> simp [Flt.mul, Flt.sub, Flt.add, Flt.neg]

theorem sum_zero_or_nan (f : Nat → Flt) (n : Nat)
    (h : ∀ k, k < n → f k = 0 ∨ f k = Flt.nan) :
    ∑ k ∈ Finset.range n, f k = 0 ∨ ∑ k ∈ Finset.range n, f k = Flt.nan := by
  induction n with
  | zero => left; rfl
  | succ n ih =>
    rw [Finset.sum_range_succ]
    rcases ih (fun k hk => h k (by omega)) with h1 | h1 <;>
      rcases h n (by omega) with h2 | h2 <;> rw [h1, h2]
    · left; exact add_zero _
    · right; exact zero_add _
    · right; exact add_zero _
    · right; rfl

/-- Two identical rows are at squared distance 0, or `NaN` when an entry is not finite. -/
theorem seq_to_seq_distance_identical (i j : Int) (M : List Flt) (N : Nat)
    (hrow : ∀ k : Nat, k < N → readF M (i * (N : Int) + (k : Int))
      = readF M (j * (N : Int) + (k : Int))) :
    seq_to_seq_distance i j M ((N : Int).tdiv 8) (N : Int) = 0 ∨
    seq_to_seq_distance i j M ((N : Int).tdiv 8) (N : Int) = Flt.nan := by
  rw [seq_to_seq_distance_sum]
  exact sum_zero_or_nan _ N (fun k hk => sqTerm_identical i j M N k (hrow k hk))

theorem sqrt_lt_of_pos (fsqrt : ℚ → ℚ) (hsqrt : ∀ q : ℚ, 0 < q → fsqrt 0 < fsqrt q)
    (x : Flt) (h : Flt.lt 0 x = true) :
    Flt.lt (Flt.sqrt fsqrt 0) (Flt.sqrt fsqrt x) = true := by
  rw [Flt.zero_def] at *
  cases x with
  | fin q =>
    simp only [Flt.lt, decide_eq_true_eq] at h
    have h1 : ¬ q < 0 := not_lt.2 (le_of_lt h)
    simp only [Flt.sqrt, lt_irrefl, if_false, h1, Flt.lt, decide_eq_true_eq]
    exact hsqrt q h
  | pinf => simp [Flt.sqrt, Flt.lt]
  | ninf => simp [Flt.lt] at h
  | nan => simp [Flt.lt] at h

theorem Flt.lt_DBL_MAX_of_lt {x y : Flt} (h : Flt.lt x y = true) :
    Flt.lt x DBL_MAX = true := by
  cases x <;> cases y <;> simp_all [Flt.lt, DBL_MAX]

theorem pairDist_singletons (fsqrt : ℚ → ℚ) (S : List Sequence) (N : Int) (M : List Flt)
    (a b : Nat) (ha : a < S.length) (hb : b < S.length) :
    pairDist fsqrt (S.map (fun s => [s])) N M (a, b)
      = Flt.sqrt fsqrt (seq_to_seq_distance S[a].index S[b].index M (N.tdiv 8) N) := by
  unfold pairDist
  simp only
  rw [clusterAt_natCast _ _ (by simpa using ha), clusterAt_natCast _ _ (by simpa using hb)]
  simp only [List.getElem_map]
  exact mean_difference_singleton fsqrt S[a] S[b] N M

theorem four_index (seq0 seq1 seq2 seq3 : Sequence)
    (h0 : seq0.index = 0) (h1 : seq1.index = 1) (h2 : seq2.index = 2) (h3 : seq3.index = 3)
    (a : Nat) (ha : a < [seq0, seq1, seq2, seq3].length) :
    ([seq0, seq1, seq2, seq3][a]).index = (a : Int) := by
  match a, ha with
  | 0, _ => exact h0
  | 1, _ => exact h1
  | 2, _ => exact h2
  | 3, _ => exact h3

/-- C11: for four singleton clusters with indices 0..3 and a matrix whose rows 0 and 1 are
identical and in which every other pair of sequences has a strictly larger squared distance,
the first call of `find_closest_clusters` made by `UPGMA` returns `idxC1 = 0`, `idxC2 = 1`,
and the first merge produces the cluster `[seq0, seq1]`; the parameter `fsqrt` is a square
root in that its value at 0 is below its value at every positive number. -/
theorem first_merge_identical_rows (fsqrt : ℚ → ℚ)
    (hsqrt : ∀ q : ℚ, 0 < q → fsqrt 0 < fsqrt q)
    (M : List Flt) (sub : List Int) (seq0 seq1 seq2 seq3 : Sequence)
    (h0 : seq0.index = 0) (h1 : seq1.index = 1) (h2 : seq2.index = 2) (h3 : seq3.index = 3)
    (hrow : ∀ k : Nat, k < 4 →
      readF M (0 * ((4 : Nat) : Int) + (k : Int)) = readF M (1 * ((4 : Nat) : Int) + (k : Int)))
    (hlarger : ∀ a b : Nat, a < b → b < 4 → ¬ (a = 0 ∧ b = 1) →
      Flt.lt (seq_to_seq_distance 0 1 M (((4 : Nat) : Int).tdiv 8) ((4 : Nat) : Int))
        (seq_to_seq_distance (a : Int) (b : Int) M (((4 : Nat) : Int).tdiv 8) ((4 : Nat) : Int))
        = true) :
    find_closest_clusters fsqrt ((4 : Nat) : Int) [[seq0], [seq1], [seq2], [seq3]]
        ((4 : Nat) : Int) M { cToMerge1 := [], idxC1 := 0, cToMerge2 := [], idxC2 := 0 }
      = { cToMerge1 := [seq0], idxC1 := 0, cToMerge2 := [seq1], idxC2 := 1 } ∧
    (UPGMA_trace fsqrt [[seq0], [seq1], [seq2], [seq3]] M sub)[0]?
      = some { numClusters := 3, clusters := [[seq2], [seq3], [seq0, seq1]] } := by
  have hd01 : seq_to_seq_distance 0 1 M (((4 : Nat) : Int).tdiv 8) ((4 : Nat) : Int) = 0 := by
    rcases seq_to_seq_distance_identical 0 1 M 4 hrow with h | h
    · exact h
    · have := hlarger 0 2 (by decide) (by decide) (by decide)
      rw [h] at this
      simp [Flt.lt] at this
  have hmd : ∀ a b : Nat, a < b → b < 4 →
      pairDist fsqrt [[seq0], [seq1], [seq2], [seq3]] ((4 : Nat) : Int) M (a, b)
        = Flt.sqrt fsqrt (seq_to_seq_distance (a : Int) (b : Int) M
            (((4 : Nat) : Int).tdiv 8) ((4 : Nat) : Int)) := by
    intro a b hab hb
    have ha' : a < [seq0, seq1, seq2, seq3].length := by
      simp only [List.length_cons, List.length_nil]; omega
    have hb' : b < [seq0, seq1, seq2, seq3].length := by
      simp only [List.length_cons, List.length_nil]; omega
    have := pairDist_singletons fsqrt [seq0, seq1, seq2, seq3] ((4 : Nat) : Int) M a b ha' hb'
    rw [four_index seq0 seq1 seq2 seq3 h0 h1 h2 h3 a ha',
      four_index seq0 seq1 seq2 seq3 h0 h1 h2 h3 b hb'] at this
    exact this
  have hbig : ∀ a b : Nat, a < b → b < 4 → ¬ (a = 0 ∧ b = 1) →
      Flt.lt (pairDist fsqrt [[seq0], [seq1], [seq2], [seq3]] ((4 : Nat) : Int) M (0, 1))
        (pairDist fsqrt [[seq0], [seq1], [seq2], [seq3]] ((4 : Nat) : Int) M (a, b)) = true := by
    intro a b hab hb hne
    rw [hmd 0 1 (by decide) (by decide), hmd a b hab hb]
    have hl := hlarger a b hab hb hne
    simp only [Nat.cast_zero, Nat.cast_one] at hl ⊢
    rw [hd01] at hl ⊢
    exact sqrt_lt_of_pos fsqrt hsqrt _ hl
  have hfc : find_closest_clusters fsqrt ((4 : Nat) : Int) [[seq0], [seq1], [seq2], [seq3]]
        ((4 : Nat) : Int) M { cToMerge1 := [], idxC1 := 0, cToMerge2 := [], idxC2 := 0 }
      = { cToMerge1 := [seq0], idxC1 := 0, cToMerge2 := [seq1], idxC2 := 1 } := by
    rcases find_closest_cases fsqrt ((4 : Nat) : Int) [[seq0], [seq1], [seq2], [seq3]]
        ((4 : Nat) : Int) M { cToMerge1 := [], idxC1 := 0, cToMerge2 := [], idxC2 := 0 } with
      ⟨-, hall⟩ | ⟨L1, p, L2, hL, hr, -, hm1, hm2⟩
    · exfalso
      have h01 := hall (0, 1) (by
        simp only [Int.toNat_ofNat]; exact mem_pairsOf.2 ⟨by decide, by decide⟩)
      have hb := hbig 0 2 (by decide) (by decide) (by decide)
      have := Flt.lt_DBL_MAX_of_lt hb
      simp only [pairDist] at h01 this
      rw [this] at h01
      exact absurd h01 (by simp)
    · simp only [Int.toNat_ofNat] at hL
      have hmem : p ∈ pairsOf 4 := by rw [hL]; simp
      obtain ⟨hlt, hp2⟩ := mem_pairsOf.1 hmem
      have hp : p = (0, 1) := by
        by_contra hne
        have hne' : ¬ (p.1 = 0 ∧ p.2 = 1) := by
          rintro ⟨e1, e2⟩
          exact hne (Prod.ext e1 e2)
        have hb := hbig p.1 p.2 hlt hp2 hne'
        have h01 : (0, 1) ∈ pairsOf 4 := mem_pairsOf.2 ⟨by decide, by decide⟩
        rw [hL] at h01
        have hnot : Flt.lt
            (pairDist fsqrt [[seq0], [seq1], [seq2], [seq3]] ((4 : Nat) : Int) M (0, 1))
            (pairDist fsqrt [[seq0], [seq1], [seq2], [seq3]] ((4 : Nat) : Int) M p) = false := by
          rcases List.mem_append.1 h01 with h | h
          · exact (hm1 _ h).1
          · rcases List.mem_cons.1 h with h | h
            · exact absurd h.symm hne
            · exact hm2 _ h
        rw [hnot] at hb
        exact absurd hb (by simp)
      rw [hr, hp]
      simp [clusterAt]
  refine ⟨hfc, ?_⟩
  unfold UPGMA_trace
  rw [UPGMA_loop]
  have hgt : (UPGMA_init [[seq0], [seq1], [seq2], [seq3]]).numClusters > 1 := by
    simp [UPGMA_init]
  simp only [hgt, if_true, List.getElem?_cons_zero, Option.some.injEq]
  have hlen : (([[seq0], [seq1], [seq2], [seq3]] : List Cluster).length : Int)
      = ((4 : Nat) : Int) := rfl
  simp only [UPGMA_step, UPGMA_init, hlen, hfc, align_clusters, merge_clusters_concat, push_back,
    erase]
  simp

theorem sqrtHeron_pos (q : ℚ) (h : 0 < q) : sqrtHeron 0 < sqrtHeron q := by
  unfold sqrtHeron
  simp only [le_refl, if_true, not_le.2 h, if_false]
  linarith

theorem rows_identical_sample (k : Nat) (hk : k < 4) :
    readF [Flt.fin 0, Flt.fin 0, Flt.fin 1, Flt.fin 2, Flt.fin 0, Flt.fin 0, Flt.fin 1, Flt.fin 2,
        Flt.fin 1, Flt.fin 1, Flt.fin 0, Flt.fin 3, Flt.fin 2, Flt.fin 2, Flt.fin 3, Flt.fin 0]
        (0 * ((4 : Nat) : Int) + (k : Int))
      = readF [Flt.fin 0, Flt.fin 0, Flt.fin 1, Flt.fin 2, Flt.fin 0, Flt.fin 0, Flt.fin 1,
        Flt.fin 2, Flt.fin 1, Flt.fin 1, Flt.fin 0, Flt.fin 3, Flt.fin 2, Flt.fin 2, Flt.fin 3,
        Flt.fin 0] (1 * ((4 : Nat) : Int) + (k : Int)) := by
  interval_cases k <;> simp [readF]

theorem dist_sample (a b : Nat) (hab : a < b) (hb : b < 4) (hne : ¬ (a = 0 ∧ b = 1)) :
    Flt.lt (seq_to_seq_distance 0 1
        [Flt.fin 0, Flt.fin 0, Flt.fin 1, Flt.fin 2, Flt.fin 0, Flt.fin 0, Flt.fin 1, Flt.fin 2,
          Flt.fin 1, Flt.fin 1, Flt.fin 0, Flt.fin 3, Flt.fin 2, Flt.fin 2, Flt.fin 3, Flt.fin 0]
        (((4 : Nat) : Int).tdiv 8) ((4 : Nat) : Int))
      (seq_to_seq_distance (a : Int) (b : Int)
        [Flt.fin 0, Flt.fin 0, Flt.fin 1, Flt.fin 2, Flt.fin 0, Flt.fin 0, Flt.fin 1, Flt.fin 2,
          Flt.fin 1, Flt.fin 1, Flt.fin 0, Flt.fin 3, Flt.fin 2, Flt.fin 2, Flt.fin 3, Flt.fin 0]
        (((4 : Nat) : Int).tdiv 8) ((4 : Nat) : Int)) = true := by
  have hcases : (a = 0 ∧ b = 2) ∨ (a = 0 ∧ b = 3) ∨ (a = 1 ∧ b = 2) ∨ (a = 1 ∧ b = 3)
      ∨ (a = 2 ∧ b = 3) := by omega
  rcases hcases with ⟨rfl, rfl⟩ | ⟨rfl, rfl⟩ | ⟨rfl, rfl⟩ | ⟨rfl, rfl⟩ | ⟨rfl, rfl⟩
  all_goals
    simp [seq_to_seq_distance, Int.tdiv, Int.tmod, List.range_succ, reduce_lane0, set1_lane,
      readF]
    norm_num [Flt.add_def, Flt.sub_def, Flt.mul_def, Flt.zero_def, Flt.add, Flt.sub, Flt.neg,
      Flt.mul, Flt.lt]

/-- C11 (witness): `sqrt` replaced by `sqrtHeron`, and the symmetric matrix with rows
`[0,0,1,2]`, `[0,0,1,2]`, `[1,1,0,3]`, `[2,2,3,0]`: the squared distances are 0 for the pair
(0,1) and 4, 16, 4, 16, 20 for the others. -/
theorem first_merge_identical_rows_witness :
    (∀ q : ℚ, 0 < q → sqrtHeron 0 < sqrtHeron q) ∧
    (sampleSeq 0).index = 0 ∧ (sampleSeq 1).index = 1 ∧ (sampleSeq 2).index = 2 ∧
    (sampleSeq 3).index = 3 ∧
    find_closest_clusters sqrtHeron ((4 : Nat) : Int)
        [[sampleSeq 0], [sampleSeq 1], [sampleSeq 2], [sampleSeq 3]] ((4 : Nat) : Int)
        [Flt.fin 0, Flt.fin 0, Flt.fin 1, Flt.fin 2, Flt.fin 0, Flt.fin 0, Flt.fin 1, Flt.fin 2,
          Flt.fin 1, Flt.fin 1, Flt.fin 0, Flt.fin 3, Flt.fin 2, Flt.fin 2, Flt.fin 3, Flt.fin 0]
        { cToMerge1 := [], idxC1 := 0, cToMerge2 := [], idxC2 := 0 }
      = { cToMerge1 := [sampleSeq 0], idxC1 := 0, cToMerge2 := [sampleSeq 1], idxC2 := 1 } ∧
    (UPGMA_trace sqrtHeron [[sampleSeq 0], [sampleSeq 1], [sampleSeq 2], [sampleSeq 3]]
        [Flt.fin 0, Flt.fin 0, Flt.fin 1, Flt.fin 2, Flt.fin 0, Flt.fin 0, Flt.fin 1, Flt.fin 2,
          Flt.fin 1, Flt.fin 1, Flt.fin 0, Flt.fin 3, Flt.fin 2, Flt.fin 2, Flt.fin 3, Flt.fin 0]
        [])[0]?
      = some { numClusters := 3,
               clusters := [[sampleSeq 2], [sampleSeq 3], [sampleSeq 0, sampleSeq 1]] } :=
  ⟨sqrtHeron_pos, rfl, rfl, rfl, rfl,
    first_merge_identical_rows sqrtHeron sqrtHeron_pos
      [Flt.fin 0, Flt.fin 0, Flt.fin 1, Flt.fin 2, Flt.fin 0, Flt.fin 0, Flt.fin 1, Flt.fin 2,
        Flt.fin 1, Flt.fin 1, Flt.fin 0, Flt.fin 3, Flt.fin 2, Flt.fin 2, Flt.fin 3, Flt.fin 0]
      [] (sampleSeq 0) (sampleSeq 1) (sampleSeq 2) (sampleSeq 3) rfl rfl rfl rfl
      rows_identical_sample dist_sample⟩

/-! ### The matrix reads stay in range -/

/-- The list `seq_to_seq_reads` holds every position `seq_to_seq_distance` depends on: two
matrices that agree at these positions give the same result. -/
theorem seq_to_seq_distance_congr (i j : Int) (c n : Int) (M M' : List Flt)
    (h : ∀ r ∈ seq_to_seq_reads i j c n, readF M r.2 = readF M' r.2) :
    seq_to_seq_distance i j M c n = seq_to_seq_distance i j M' c n := by
  have hload : ∀ (k : Nat), k ∈ List.range c.toNat → ∀ (s : Int), (s = i ∨ s = j) →
      _mm256_loadu_ps M (s * n + (k : Int) * 8) = _mm256_loadu_ps M' (s * n + (k : Int) * 8) := by
    intro k hk s hs
    funext l
    unfold _mm256_loadu_ps
    apply h (s, s * n + (k : Int) * 8 + (l.val : Int))
    unfold seq_to_seq_reads
    apply List.mem_append_left
    rw [List.mem_flatMap]
    refine ⟨k, hk, ?_⟩
    rcases hs with rfl | rfl
    · apply List.mem_append_left
      exact List.mem_map.2 ⟨l.val, List.mem_range.2 l.isLt, rfl⟩
    · apply List.mem_append_right
      exact List.mem_map.2 ⟨l.val, List.mem_range.2 l.isLt, rfl⟩
  have htail : ∀ (t : Nat), t ∈ List.range (n.tmod 8).toNat → ∀ (s : Int), (s = i ∨ s = j) →
      readF M (s * n + (8 * c + (t : Int))) = readF M' (s * n + (8 * c + (t : Int))) := by
    intro t ht s hs
    apply h (s, s * n + (8 * c + (t : Int)))
    unfold seq_to_seq_reads
    apply List.mem_append_right
    rw [List.mem_flatMap]
    refine ⟨t, ht, ?_⟩
    rcases hs with rfl | rfl <;> simp
  unfold seq_to_seq_distance
  simp only
  have e1 : (List.range c.toNat).foldl (fun (dist : M256) (k : Nat) =>
        _mm256_add_ps dist (_mm256_mul_ps
          (_mm256_sub_ps (_mm256_loadu_ps M (i * n + (k : Int) * 8))
            (_mm256_loadu_ps M (j * n + (k : Int) * 8)))
          (_mm256_sub_ps (_mm256_loadu_ps M (i * n + (k : Int) * 8))
            (_mm256_loadu_ps M (j * n + (k : Int) * 8))))) (_mm256_set1_ps 0)
      = (List.range c.toNat).foldl (fun (dist : M256) (k : Nat) =>
        _mm256_add_ps dist (_mm256_mul_ps
          (_mm256_sub_ps (_mm256_loadu_ps M' (i * n + (k : Int) * 8))
            (_mm256_loadu_ps M' (j * n + (k : Int) * 8)))
          (_mm256_sub_ps (_mm256_loadu_ps M' (i * n + (k : Int) * 8))
            (_mm256_loadu_ps M' (j * n + (k : Int) * 8))))) (_mm256_set1_ps 0) := by
    apply foldl_congr_mem
    intro k hk d
    rw [hload k hk i (Or.inl rfl), hload k hk j (Or.inr rfl)]
  rw [e1]
  apply foldl_congr_mem
  intro t ht d
  rw [htail t ht i (Or.inl rfl), htail t ht j (Or.inr rfl)]


/-- The list `mean_difference_reads` holds every position `mean_difference` depends on: two
matrices that agree at these positions give the same result. -/
theorem mean_difference_congr (fsqrt : ℚ → ℚ) (A B : Cluster) (n : Int) (M M' : List Flt)
    (h : ∀ r ∈ mean_difference_reads A B n, readF M r.2 = readF M' r.2) :
    mean_difference fsqrt A B n M = mean_difference fsqrt A B n M' := by
  have hd : ∀ a ∈ A, ∀ b ∈ B,
      seq_to_seq_distance a.index b.index M (n.tdiv 8) n
        = seq_to_seq_distance a.index b.index M' (n.tdiv 8) n := by
    intro a ha b hb
    apply seq_to_seq_distance_congr
    intro r hr
    apply h r
    unfold mean_difference_reads
    rw [List.mem_flatMap]
    refine ⟨a, ha, ?_⟩
    rw [List.mem_flatMap]
    exact ⟨b, hb, hr⟩
  unfold mean_difference
  simp only
  congr 1
  apply foldl_congr_mem
  intro a ha d
  apply foldl_congr_mem
  intro b hb d2
  rw [hd a ha b hb]

/-- A header line directly followed by another header line: the record without residues is
dropped, and the next record takes its number. -/
theorem read_fasta_file_header_pair :
    read_fasta_file (some [">a", ">b", "AC", ">c", "G", "T"])
      = Except.ok [{ seq := "AC", id := ">b", index := 0 },
          { seq := "GT", id := ">c", index := 1 }] := by
  have h1 : "AC".isEmpty = false := by decide
  have h2 : "".isEmpty = true := by decide
  have h3 : "G".isEmpty = false := by decide
  simp [read_fasta_file, read_fasta_line, firstChar, push_back, h1, h2, h3]

theorem mean_difference_short_matrix :
    mean_difference sqrtHeron [sampleSeq 0] [sampleSeq 1] 2 [Flt.fin 0] = Flt.nan := by
  simp [mean_difference, seq_to_seq_distance, sampleSeq, Int.tdiv, Int.tmod, List.range_succ,
    reduce_lane0, set1_lane, readF]
  simp [Flt.add_def, Flt.sub_def, Flt.mul_def, Flt.div_def, Flt.zero_def, Flt.add, Flt.sub,
    Flt.neg, Flt.mul, Flt.div, Flt.sqrt, Flt.ofInt, Flt.signedInf]


end MSA
